/-
Verification of the nanobot MCP aggregator against its natural-language
specification.  The Go source under pkg/ is shallowly embedded: pure
functions become Lean functions, Go strings are modelled as `String`
(rune-level) or as byte lists where the source works on bytes, Go maps
become association lists with first-match lookup, and fallible code
returns `Except`/`Option`.
-/
import Mathlib

namespace Nanobot

/-! ## Go string helpers -/

/-- `strings.Cut` specialised to a one-character separator (the source only
cuts on ":" and "/"): split around the first occurrence, reporting whether
the separator was found. -/
def cutChars : List Char → Char → Option (List Char × List Char)
  | [], _ => none
  | c :: cs, sep =>
    if c = sep then some ([], cs)
    else
      match cutChars cs sep with
      | some (a, b) => some (c :: a, b)
      | none => none

/-- Go `strings.Cut(s, sep)` for a one-character `sep`:
`(before, after, found)`. -/
def cut (s : String) (sep : Char) : String × String × Bool :=
  match cutChars s.data sep with
  | some (a, b) => (String.mk a, String.mk b, true)
  | none => (s, "", false)

/-! ## pkg/types/chat.go : ToolRef -/

structure ToolRef where
  Server : String
  Tool : String
  As : String
deriving DecidableEq, Repr

/-- `ToolRef.PublishedName` from pkg/types/chat.go. -/
def ToolRef.PublishedName (t : ToolRef) (name : String) : String :=
  if t.As ≠ "" then t.As
  else if t.Tool ≠ "" then t.Tool
  else if name = "" then t.Server
  else name

/-- `ParseToolRef` from pkg/types/chat.go: cut on ":" (text before the colon
is the server/tool part, text after it the alias), then cut the first part
on "/". -/
def ParseToolRef (ref : String) : ToolRef :=
  let c1 := cut ref ':'
  let c2 := cut c1.1 '/'
  { Server := c2.1, Tool := c2.2.1, As := c1.2.1 }

/-! ## pkg/agents/truncate.go : sanitizePathComponent -/

/-- One character of the class `[a-zA-Z0-9_\-.]` of `sanitizeRe`
(pkg/agents/truncate.go); every other rune is replaced by `_`. -/
def isAllowedChar (c : Char) : Bool :=
  ('a' ≤ c && c ≤ 'z') || ('A' ≤ c && c ≤ 'Z') || ('0' ≤ c && c ≤ '9') ||
    c = '_' || c = '-' || c = '.'

/-- `sanitizePathComponent` from pkg/agents/truncate.go: replace every rune
outside `[A-Za-z0-9_.-]` with `_`, strip leading dots, cap at 100
(after replacement the string is ASCII, so Go's byte cap is the rune cap),
and default to "unnamed" when empty. -/
def sanitizePathComponent (s : String) : String :=
  let l := (s.data.map (fun c => if isAllowedChar c then c else '_')).dropWhile
    (fun c => c = '.')
  let l := l.take 100
  if l.isEmpty then "unnamed" else String.mk l

/-! ## Go maps as association lists -/

/-- Go-map lookup on an association list (first match wins). -/
def lookupAL {α : Type} : List (String × α) → String → Option α
  | [], _ => none
  | (k, v) :: rest, key => if k = key then some v else lookupAL rest key

/-- Go-map assignment `m[key] = v`: replace the first binding of the key,
append when absent. -/
def setAL {α : Type} : List (String × α) → String → α → List (String × α)
  | [], key, v => [(key, v)]
  | (k, w) :: rest, key, v =>
    if k = key then (k, v) :: rest else (k, w) :: setAL rest key v

/-- Go `delete(m, key)`. -/
def deleteAL {α : Type} : List (String × α) → String → List (String × α)
  | [], _ => []
  | (k, v) :: rest, key =>
    if k = key then deleteAL rest key else (k, v) :: deleteAL rest key

/-- Go `strings.HasPrefix` / prefix test on keys (rune-level). -/
def hasPfx (p s : String) : Bool := p.data.isPrefixOf s.data

/-! ## pkg/sessiondata/sessiondata.go : subscription filter (initSubscriptions) -/

/-- The params of an inbound MCP message as seen by the subscription filter:
either JSON whose `uri` field unmarshals to the given string (possibly
empty), or params on which `json.Unmarshal` errors. -/
inductive SubsParams
  | uriParams (uri : String)
  | badParams
deriving DecidableEq, Repr

structure McpMessage where
  method : String
  params : SubsParams
deriving DecidableEq, Repr

/-- The inbound filter installed by `initSubscriptions`
(pkg/sessiondata/sessiondata.go): pass every message whose method is not
`notifications/resources/updated`; for updated-notifications, pass when the
params fail to unmarshal, otherwise pass exactly when the session's
`resourceSubscriptions` set (`none` when the attribute is absent) contains
the URI; drop (return `none`) otherwise. -/
def subscriptionsFilter (subs : Option (List String)) (msg : McpMessage) :
    Option McpMessage :=
  if msg.method ≠ "notifications/resources/updated" then some msg
  else
    match msg.params with
    | .badParams => some msg
    | .uriParams uri =>
      match subs with
      | some l => if uri ∈ l then some msg else none
      | none => none

/-- Membership of a URI in the (possibly absent) subscription set. -/
def subsContains (subs : Option (List String)) (u : String) : Bool :=
  match subs with
  | some l => u ∈ l
  | none => false

/-! ## pkg/sessiondata/sessiondata.go : Sync / Refresh -/

/-- A session-attribute value: a cached upstream client (which can be
closed), a saved string (for example the config hash), or any other
attribute payload (mapping caches, the agents display list, ...). -/
inductive AttrVal
  | clientAttr (closed : Bool)
  | strAttr (s : String)
  | dataAttr (tag : String)
deriving DecidableEq, Repr

abbrev SessionAttrs := List (String × AttrVal)

/-- Whether an attribute value is a cached upstream client, i.e. implements
the `Close(bool)` interface asserted by `Refresh`. -/
def isClientVal : AttrVal → Bool
  | .clientAttr _ => true
  | _ => false

abbrev toolMappingKey : String := "toolMapping"
abbrev promptMappingKey : String := "promptMapping"
abbrev resourceMappingKey : String := "resourceMapping"
abbrev resourceTemplateMappingKey : String := "resourceTemplateMapping"
abbrev resourceTemplateMappingCacheKey : String := "resourceTemplateMappingCache"
abbrev agentsSessionKey : String := "agents"
abbrev currentAgentTargetSessionKey : String := "currentAgentTargetMapping"
abbrev currentAgentSessionKey : String := "currentAgent"
abbrev configHashSessionKey : String := "configHash"

/-- The keys of the `clients/`-prefixed attributes whose value is a client
(closed by `Refresh` when `close` is set). -/
def closedClientKeys : SessionAttrs → List String
  | [] => []
  | (k, v) :: rest =>
    if hasPfx "clients/" k && isClientVal v then k :: closedClientKeys rest
    else closedClientKeys rest

/-- Deletion of every attribute whose key carries the `clients/` prefix
(the delete half of `Refresh`'s client loop). -/
def dropClientKeys : SessionAttrs → SessionAttrs
  | [] => []
  | (k, v) :: rest =>
    if hasPfx "clients/" k then dropClientKeys rest
    else (k, v) :: dropClientKeys rest

/-- `Data.Refresh` (pkg/sessiondata/sessiondata.go): when `close` is set,
close and delete every attribute whose key has the `clients/` prefix, then
delete the tool/prompt/resource/resource-template mapping keys and the
agent-selection keys.  The second component records the keys of the client
values that were closed. -/
def Refresh (close : Bool) (attrs : SessionAttrs) : SessionAttrs × List String :=
  let closed := if close then closedClientKeys attrs else []
  let attrs := if close then dropClientKeys attrs else attrs
  let attrs := deleteAL attrs toolMappingKey
  let attrs := deleteAL attrs currentAgentSessionKey
  let attrs := deleteAL attrs promptMappingKey
  let attrs := deleteAL attrs resourceMappingKey
  let attrs := deleteAL attrs resourceTemplateMappingKey
  let attrs := deleteAL attrs agentsSessionKey
  let attrs := deleteAL attrs currentAgentTargetSessionKey
  (attrs, closed)

/-- The stored config hash of a session (`session.Get(ConfigHashSessionKey,
&existingHash)`; a missing or non-string attribute leaves it ""). -/
def storedConfigHash (attrs : SessionAttrs) : String :=
  match lookupAL attrs configHashSessionKey with
  | some (.strAttr s) => s
  | _ => ""

/-- The config-hash tail of `Data.Sync` (pkg/sessiondata/sessiondata.go,
after the config has been loaded and stored): read the stored hash, run
`Refresh(close=true)` when the freshly computed hash differs, and store the
new hash.  `computedHash` stands for `sha256` of the JSON encoding of
`{config, env}`, both external encodings.  Returns the updated attributes
and the keys of the closed clients. -/
def SyncHash (computedHash : String) (attrs : SessionAttrs) :
    SessionAttrs × List String :=
  let p := if computedHash ≠ storedConfigHash attrs then Refresh true attrs
    else (attrs, [])
  (setAL p.1 configHashSessionKey (.strAttr computedHash), p.2)

/-! ## pkg/server/server.go : environment reconciliation -/

/-- `types.EnvDef` (pkg/types/chat.go): one declared environment variable. -/
structure EnvDef where
  dflt : String
  description : String
  options : List String
  optional : Bool
  sensitive : Option Bool
  useBearerToken : Bool
deriving DecidableEq, Repr, Inhabited

abbrev EnvMap := List (String × String)

/-- `getEnvVal` (pkg/server/server.go).  `expr.Lookup` is not among the
sources; modelled from the spec ("look up the current env map") as a plain
map lookup.  A found value is returned even when empty; otherwise a
non-optional variable with `useBearerToken` falls back to a non-empty
`http:bearer-token` entry, then to "" (non-optional) or the default. -/
def getEnvVal (envMap : EnvMap) (envKey : String) (envDef : EnvDef) : String :=
  match lookupAL envMap envKey with
  | some val => val
  | none =>
    let tailVal := if !envDef.optional then "" else envDef.dflt
    if envDef.useBearerToken then
      match lookupAL envMap "http:bearer-token" with
      | some bearer => if bearer ≠ "" then bearer else tailVal
      | none => tailVal
    else tailVal

/-- One entry of the `missingEnv` error data: `{name, description, default}`
plus `options` when the variable declares options. -/
structure MissingEnvEntry where
  name : String
  description : String
  dflt : String
  options : Option (List String)
deriving DecidableEq, Repr

/-- The JSON-RPC error produced by `reconcileEnv`: the code and the
`missingEnv` payload of its data object (the free-text message is not
modelled). -/
structure RPCErr where
  code : Int
  missingEnv : List MissingEnvEntry
deriving DecidableEq, Repr

/-- The per-variable loop of `reconcileEnv`: thread the env map through
(`envMap[envKey] = envVal`) and accumulate the missing keys.  Go iterates
the config map in unspecified order; the embedding fixes the declaration
order of the association list. -/
def reconcileEnvLoop : List (String × EnvDef) → EnvMap → EnvMap × List String
  | [], envMap => (envMap, [])
  | (envKey, envDef) :: rest, envMap =>
    let envVal := getEnvVal envMap envKey envDef
    if envVal == "" && !envDef.optional then
      let r := reconcileEnvLoop rest envMap
      (r.1, envKey :: r.2)
    else
      reconcileEnvLoop rest (setAL envMap envKey envVal)

/-- The `missingEnv` entry built by `reconcileEnv` for a missing key (it
re-reads the definition from the config map). -/
def missingEnvEntryFor (cfgEnv : List (String × EnvDef)) (key : String) :
    MissingEnvEntry :=
  let d := (lookupAL cfgEnv key).getD default
  { name := key, description := d.description, dflt := d.dflt,
    options := if d.options.isEmpty then none else some d.options }

/-- `reconcileEnv` (pkg/server/server.go): succeed with the updated env map
when no required variable is missing, else fail with code `-32602` and one
`missingEnv` entry per missing variable. -/
def reconcileEnv (cfgEnv : List (String × EnvDef)) (envMap : EnvMap) :
    Except RPCErr EnvMap :=
  let r := reconcileEnvLoop cfgEnv envMap
  if r.2.isEmpty then .ok r.1
  else .error { code := -32602, missingEnv := r.2.map (missingEnvEntryFor cfgEnv) }

/-- The environment gate of `handleInitialize` (pkg/server/server.go): the
session-init hook result propagates first, then a `reconcileEnv` failure
fails the handler; the remainder of the handler (refresh, capability
synthesis, proxy pass-through) is summarised as success. -/
def handleInitializeEnvGate (hook : Except RPCErr Unit)
    (cfgEnv : List (String × EnvDef)) (envMap : EnvMap) : Except RPCErr Unit :=
  match hook with
  | .error e => .error e
  | .ok _ =>
    match reconcileEnv cfgEnv envMap with
    | .error e => .error e
    | .ok _ => .ok ()

/-- The required variables that `getEnvVal` resolves to "" against a given
env map (the spec-side characterisation of "missing"). -/
def missingRequired (cfgEnv : List (String × EnvDef)) (envMap : EnvMap) :
    List (String × EnvDef) :=
  cfgEnv.filter (fun kd => getEnvVal envMap kd.1 kd.2 == "" && !kd.2.optional)

/-! ## pkg/agents (agent completion loop) : toolCalls -/

/-- `types.ToolCall` (pkg/types/completion.go), reduced to the fields the
loop reads: arguments, call id and tool name. -/
structure ToolCall where
  arguments : String
  callID : String
  name : String
deriving DecidableEq, Repr

/-- One output item of a completer response as consumed by `toolCalls`:
items that are not tool calls carry `none`. -/
structure RespItem where
  toolCall : Option ToolCall
deriving DecidableEq, Repr

/-- `types.TargetMapping`, reduced to the fields `toolCalls`/`invoke`
use. -/
structure TargetMapping where
  mcpServer : String
  targetName : String
deriving DecidableEq, Repr

/-- The `toolCall` record of the agents package: the completion items
produced by `invoke` (of abstract payload type `ω`) and the done flag. -/
structure ToolCallRec (ω : Type) where
  output : ω
  done : Bool
deriving DecidableEq, Repr

/-- The `run` struct of the agents package, reduced to the fields
`toolCalls` touches: the response output items, the toolOutputs map, the
tool mappings and the done flag. -/
structure Run (ω : Type) where
  responseOutput : List RespItem
  toolOutputs : List (String × ToolCallRec ω)
  toolToMCPServer : List (String × TargetMapping)
  done : Bool
deriving DecidableEq, Repr

/-- `run.ToolOutputs[callID].Done` — Go map access with zero value when the
key is absent. -/
def outDone {ω : Type} (outs : List (String × ToolCallRec ω)) (id : String) :
    Bool :=
  match lookupAL outs id with
  | some rec => rec.done
  | none => false

/-- The loop body of `Agents.toolCalls`: walk the response output; skip
non-tool-call items and calls already marked done; resolve each remaining
call through the run's tool mappings (error when the name cannot be
mapped); dispatch it through `invoke` (the confirmation + registry call,
abstracted as a fallible function); record the output under the callID
with done = true.  After the walk, mark the run done when toolOutputs is
empty. -/
def toolCallsGo {ω : Type}
    (invoke : TargetMapping → ToolCall → Except String ω) :
    List RespItem → Run ω → Except String (Run ω)
  | [], run =>
    .ok (if run.toolOutputs.isEmpty then { run with done := true } else run)
  | item :: rest, run =>
    match item.toolCall with
    | none => toolCallsGo invoke rest run
    | some fc =>
      if outDone run.toolOutputs fc.callID then toolCallsGo invoke rest run
      else
        match lookupAL run.toolToMCPServer fc.name with
        | none => .error ("can not map tool " ++ fc.name ++ " to a MCP server")
        | some target =>
          match invoke target fc with
          | .error e => .error e
          | .ok out =>
            toolCallsGo invoke rest
              { run with
                toolOutputs :=
                  setAL run.toolOutputs fc.callID { output := out, done := true } }

/-- `Agents.toolCalls` (agent loop source part). -/
def toolCalls {ω : Type} (invoke : TargetMapping → ToolCall → Except String ω)
    (run : Run ω) : Except String (Run ω) :=
  toolCallsGo invoke run.responseOutput run

/-- The tool calls of a response's output items, in order. -/
def responseToolCalls (items : List RespItem) : List ToolCall :=
  items.filterMap (·.toolCall)

/-! ## pkg/agents/compact.go : conversation compaction -/

/-- A value of a Content `_meta` map: only presence and boolean values
matter to the embedded code. -/
inductive MetaV
  | boolV (b : Bool)
  | otherV
deriving DecidableEq, Repr

/-- `mcp.Content`, reduced to the fields the compaction code reads. -/
structure CContent where
  type : String
  text : String
  meta : List (String × MetaV)
deriving DecidableEq, Repr

/-- `types.ToolCall`, reduced to the fields the transcript builder reads. -/
structure CToolCall where
  name : String
  arguments : String
deriving DecidableEq, Repr

/-- `types.ToolCallResult`, reduced to `Output.Content`. -/
structure CToolCallResult where
  content : List CContent
deriving DecidableEq, Repr

/-- `types.CompletionItem`, reduced to the fields compaction reads. -/
structure CItem where
  id : String
  content : Option CContent
  toolCall : Option CToolCall
  toolCallResult : Option CToolCallResult
deriving DecidableEq, Repr

/-- `types.Message` (id, created, role, items). -/
structure Msg where
  id : String
  created : Option Nat
  role : String
  items : List CItem
deriving DecidableEq, Repr

/-- `types.ToolUseDefinition` (name and description; the parameters blob is
irrelevant to the abstract token estimator). -/
structure ToolUseDefinition where
  name : String
  description : String
deriving DecidableEq, Repr

/-- `types.CompletionRequest`, reduced to the fields compaction reads. -/
structure CompletionRequest where
  model : String
  input : List Msg
  systemPrompt : String
  tools : List ToolUseDefinition
deriving DecidableEq, Repr

/-- `types.CompletionResponse`: its output message. -/
structure CompletionResponse where
  output : Msg
deriving DecidableEq, Repr

abbrev compactionSummaryMetaKey : String := "ai.nanobot.meta/compaction-summary"

/-- `getContextWindowSize` (pkg/agents/compact.go): a positive override is
used directly, otherwise the 200k default. -/
def getContextWindowSize (configOverride : Int) : Int :=
  if configOverride > 0 then configOverride else 200000

/-- `shouldCompact` (pkg/agents/compact.go): the token estimate is strictly
above `int(float64(contextWindowSize) * 0.835)`.  The estimator itself
(tiktoken + image decoding) is external and abstracted as `est`; the Go
float64 threshold agrees with the exact integer `835 * cw / 1000` at every
realistic window size (checked exhaustively up to 2·10⁶, in particular at
the 200000 default where it is 167000). -/
def shouldCompact (est : List Msg → String → List ToolUseDefinition → Nat)
    (req : CompletionRequest) (contextWindowSize : Int) : Bool :=
  if contextWindowSize ≤ 0 then false
  else (est req.input req.systemPrompt req.tools : Int) >
    835 * contextWindowSize / 1000

/-- `IsCompactionSummary` (pkg/agents/compact.go): first item has content
whose meta carries the compaction-summary key. -/
def IsCompactionSummary (msg : Msg) : Bool :=
  match msg.items with
  | [] => false
  | item :: _ =>
    match item.content with
    | none => false
    | some c =>
      match lookupAL c.meta compactionSummaryMetaKey with
      | some _ => true
      | none => false

/-- `splitHistoryAndNewInput` (pkg/agents/compact.go): split the populated
input at the first message whose id matches the first current-request
message; everything is history when the boundary is not found. -/
def splitHistoryAndNewInput (fullInput currentRequestInput : List Msg) :
    List Msg × List Msg :=
  match currentRequestInput with
  | [] => (fullInput, [])
  | c :: _ =>
    match fullInput.findIdx? (fun m => m.id == c.id) with
    | some i => (fullInput.take i, fullInput.drop i)
    | none => (fullInput, [])

/-- The text of a summary message (`msg.Items[0].Content.Text` when
present). -/
def summaryTextOf (m : Msg) : String :=
  match m.items with
  | [] => ""
  | item :: _ =>
    match item.content with
    | some c => c.text
    | none => ""

/-- The last-compaction-summary scan of `compact`: the text of the last
summary in the history and the messages after it, or `none` when the
history holds no summary. -/
def findLastSummary : List Msg → Option (String × List Msg)
  | [] => none
  | m :: rest =>
    match findLastSummary rest with
    | some r => some r
    | none =>
      if IsCompactionSummary m then some (summaryTextOf m, rest) else none

/-- One item of the summarisation transcript (`buildTranscript`'s inner
loop).  Go truncates tool-result texts at 5000 bytes; the embedding
truncates at 5000 runes. -/
def transcriptOfItem (role : String) (item : CItem) : String :=
  (match item.content with
   | some c => if c.text ≠ "" then "[" ++ role ++ "]: " ++ c.text ++ "\n" else ""
   | none => "") ++
  (match item.toolCall with
   | some tc =>
     "[" ++ role ++ "] (tool call: " ++ tc.name ++ "): " ++ tc.arguments ++ "\n"
   | none => "") ++
  (match item.toolCallResult with
   | some tr => String.join (tr.content.map (fun c =>
       (if c.text ≠ "" then
          "[tool result]: " ++
            (if c.text.length > 5000 then
              String.mk (c.text.data.take 5000) ++ "... [truncated]"
             else c.text) ++ "\n"
        else "") ++
       (if c.type = "image" then "[tool result]: [image data omitted]\n"
        else "")))
   | none => "")

/-- `buildTranscript` (pkg/agents/compact.go). -/
def buildTranscript (messages : List Msg) : String :=
  String.join (messages.map (fun msg =>
    let role := if msg.role = "" then "unknown" else msg.role
    String.join (msg.items.map (transcriptOfItem role))))

/-- `extractTextFromResponse` (pkg/agents/compact.go): the newline-joined
non-empty content texts; "" for a nil response. -/
def extractTextFromResponse (resp : Option CompletionResponse) : String :=
  match resp with
  | none => ""
  | some resp =>
    String.intercalate "\n" (resp.output.items.filterMap (fun item =>
      match item.content with
      | some c => if c.text ≠ "" then some c.text else none
      | none => none))

/-- The fixed prose of `buildInitialCompactionPrompt` before the transcript. -/
def initialPromptHead : String :=
  "You are a helpful AI assistant tasked with summarizing conversations for handoff.\n\nProvide a detailed but concise summary that will help another general-purpose assistant continue the conversation correctly.\nFocus on:\n- What has already been done\n- What is currently in progress\n- What should happen next\n- Key user goals, constraints, preferences, and instructions that must persist\n- Important decisions, facts, and context needed to avoid repeating work\n\nWhen constructing the summary, use this template:\n## Goal\n\n[What the user is trying to accomplish]\n\n## Key Instructions & Preferences\n\n- [Important constraints, preferences, or requirements]\n\n## What Happened\n\n[Key actions, decisions, and notable outcomes so far]\n\n## Current State\n\n[What is complete, what is in progress, and any known blockers]\n\n## Next Steps\n\n- [The next concrete actions the assistant should take]\n\n## Open Questions / Risks\n\n- [Any unresolved questions, ambiguities, or risks]\n\nDo not answer questions from the transcript. Output only the summary.\n\n--- CONVERSATION TRANSCRIPT ---\n"

/-- The fixed prose of `buildInitialCompactionPrompt` after the transcript. -/
def initialPromptTail : String :=
  "\n--- END TRANSCRIPT ---\n"

/-- `buildInitialCompactionPrompt` (pkg/agents/compact.go). -/
def buildInitialCompactionPrompt (transcript : String) : String :=
  initialPromptHead ++ transcript ++ initialPromptTail

/-- The fixed prose of `buildRecompactionPrompt` before the previous summary. -/
def recompactionPromptHead : String :=
  "You are a helpful AI assistant tasked with updating a conversation handoff summary.\n\nYou are given a previous summary plus new messages that occurred after that summary.\nCreate a single updated summary suitable for a general-purpose assistant to continue the conversation.\n\nMerge rules:\n- Treat the previous summary as prior context\n- Integrate only the new information and status changes from the new messages\n- Preserve unresolved tasks and open questions\n- Remove or collapse duplicate details\n- Keep completed items clearly marked as completed\n\nUse this template:\n## Goal\n\n[What the user is trying to accomplish]\n\n## Key Instructions & Preferences\n\n- [Important constraints, preferences, or requirements]\n\n## What Happened\n\n[Key actions, decisions, and notable outcomes so far]\n\n## Current State\n\n[What is complete, what is in progress, and any known blockers]\n\n## Next Steps\n\n- [The next concrete actions the assistant should take]\n\n## Open Questions / Risks\n\n- [Any unresolved questions, ambiguities, or risks]\n\nDo not answer questions from the transcript. Output only the updated summary.\n\n--- PREVIOUS SUMMARY ---\n"

/-- The fixed prose of `buildRecompactionPrompt` between summary and new messages. -/
def recompactionPromptMid : String :=
  "\n--- END PREVIOUS SUMMARY ---\n\n--- NEW MESSAGES ---\n"

/-- The fixed prose of `buildRecompactionPrompt` after the new messages. -/
def recompactionPromptTail : String :=
  "\n--- END NEW MESSAGES ---\n"

/-- `buildRecompactionPrompt` (pkg/agents/compact.go). -/
def buildRecompactionPrompt (previousSummaryText transcript : String) : String :=
  recompactionPromptHead ++ previousSummaryText ++ recompactionPromptMid ++
    transcript ++ recompactionPromptTail

/-- `buildCompactionCarryForwardMessage` (pkg/agents/compact.go). -/
def buildCompactionCarryForwardMessage (summaryText : String) : String :=
  "The conversation history was compacted to stay within context limits. Continue the conversation naturally using the summary below as working context. Do not mention this compaction unless the user asks.\n\n[Conversation Summary]\n" ++
    summaryText

/-- `compactResult` (pkg/agents/compact.go). -/
structure compactResult where
  compactedInput : List Msg
  archivedMessages : List Msg
deriving DecidableEq, Repr

/-- The summarisation prompt built by `compact` from the history part of
the populated input: the transcript of the messages after the last summary,
wrapped in the recompaction template when a previous summary exists and in
the initial template otherwise. -/
def compactSummaryPrompt (req : CompletionRequest) (cur : List Msg) : String :=
  let history := (splitHistoryAndNewInput req.input cur).1
  let ls := findLastSummary history
  let previousSummaryText := match ls with | some r => r.1 | none => ""
  let sinceLastSummary := match ls with | some r => r.2 | none => history
  let transcript := buildTranscript sinceLastSummary
  if previousSummaryText ≠ "" then
    buildRecompactionPrompt previousSummaryText transcript
  else buildInitialCompactionPrompt transcript

/-- The single-user-message summarisation request `compact` sends to the
completer (same model as the run, no tools). -/
def compactSummaryReq (uuid : Nat → String) (req : CompletionRequest)
    (cur : List Msg) : CompletionRequest :=
  let promptContent : CContent :=
    { type := "text", text := compactSummaryPrompt req cur, meta := [] }
  let promptItem : CItem :=
    { id := uuid 1, content := some promptContent,
      toolCall := none, toolCallResult := none }
  let promptMsg : Msg :=
    { id := uuid 0, created := none, role := "user", items := [promptItem] }
  { model := req.model, input := [promptMsg], systemPrompt := "", tools := [] }

/-- The summary message `compact` creates: user role, fresh id, carried
forward summary text, and the compaction-summary meta key. -/
def compactSummaryMessage (now : Nat) (uuid : Nat → String)
    (summaryText : String) : Msg :=
  let summaryContent : CContent :=
    { type := "text",
      text := buildCompactionCarryForwardMessage summaryText,
      meta := [(compactionSummaryMetaKey, .boolV true)] }
  let summaryItem : CItem :=
    { id := uuid 3, content := some summaryContent,
      toolCall := none, toolCallResult := none }
  { id := "compaction-summary-" ++ uuid 2, created := some now,
    role := "user", items := [summaryItem] }

/-- `Agents.compact` (pkg/agents/compact.go).  The completer is the
abstract external collaborator; `uuid` supplies the fresh ids drawn inside
the function and `now` the summary timestamp.  On success the compacted
input is the fresh summary message followed by the new-input messages, and
the archive is the previously archived messages followed by the replaced
history. -/
def compact
    (completer : CompletionRequest → Except String (Option CompletionResponse))
    (now : Nat) (uuid : Nat → String)
    (req : CompletionRequest) (currentRequestInput previousCompacted : List Msg) :
    Except String compactResult :=
  match completer (compactSummaryReq uuid req currentRequestInput) with
  | .error e => .error ("compaction summarization failed: " ++ e)
  | .ok resp =>
    let summaryText := extractTextFromResponse resp
    if summaryText = "" then .error "compaction produced empty summary"
    else
      .ok { compactedInput := compactSummaryMessage now uuid summaryText ::
              (splitHistoryAndNewInput req.input currentRequestInput).2,
            archivedMessages := previousCompacted ++
              (splitHistoryAndNewInput req.input currentRequestInput).1 }

/-- Modelled from the spec: the turn driver deciding compaction.  The
agents completion loop that calls `shouldCompact` and `compact` before
invoking the completer is not among the sources (src/ holds only
compact.go); spec §4.G step 2 reads "if estimateTokens(input, system,
tools) > 0.835 × contextWindow, invoke the compaction subroutine (§4.I)
before calling the completer."  Returns the input handed to the completer
and the archived-messages list. -/
def compactIfNeeded
    (est : List Msg → String → List ToolUseDefinition → Nat)
    (completer : CompletionRequest → Except String (Option CompletionResponse))
    (now : Nat) (uuid : Nat → String)
    (req : CompletionRequest) (currentRequestInput previousCompacted : List Msg)
    (contextWindowOverride : Int) : Except String (List Msg × List Msg) :=
  if shouldCompact est req (getContextWindowSize contextWindowOverride) then
    match compact completer now uuid req currentRequestInput previousCompacted with
    | .error e => .error e
    | .ok r => .ok (r.compactedInput, r.archivedMessages)
  else .ok (req.input, previousCompacted)

/-! ## pkg/agents/truncate.go : tool-result truncation (byte-level model)

Go string sizes (`len`) and slicing (`s[:n]`) are byte operations, so the
texts, data and type tags of this model are byte lists; the sanitised path
components and all fixed notice texts are ASCII, where one rune is one
byte. -/

abbrev ByteStr := List UInt8

/-- The UTF-8 bytes of an all-ASCII string. -/
def asciiBytes (s : String) : ByteStr := s.data.map (fun c => UInt8.ofNat c.toNat)

/-- `mcp.EmbeddedResource`, reduced to its text and blob. -/
structure ResourceContents where
  text : ByteStr
  blob : ByteStr
deriving DecidableEq, Repr

/-- `mcp.Content` as read by the truncation code: type tag, text, base64
data, optional embedded resource and meta map.  `jsonLen` carries the byte
length of `json.Marshal(c)` — an external encoding, recorded as data so
`contentSize` can charge unrecognised types. -/
structure Content where
  type : ByteStr
  text : ByteStr
  data : ByteStr
  resource : Option ResourceContents
  meta : List (String × MetaV)
  jsonLen : Nat
deriving DecidableEq, Repr

abbrev maxToolResultSize : Nat := 51200

/-- `hasSkipTruncation` (pkg/agents/truncate.go): some content item's meta
has the skip-truncation key bound to boolean true. -/
def hasSkipTruncation (content : List Content) : Bool :=
  content.any (fun c =>
    match lookupAL c.meta "ai.nanobot.meta/skip-truncation" with
    | some (.boolV true) => true
    | _ => false)

/-- A textual content type (`""` or `"text"`). -/
def isTextType (t : ByteStr) : Bool := t == [] || t == asciiBytes "text"

/-- The byte size of one content part (`contentSize`'s switch): text bytes,
base64 data bytes, resource text+blob, or the JSON marshalling size of an
unrecognised type. -/
def partSize (c : Content) : Nat :=
  if c.type == asciiBytes "text" || c.type == [] then c.text.length
  else if c.type == asciiBytes "image" || c.type == asciiBytes "audio" then
    c.data.length
  else if c.type == asciiBytes "resource" then
    match c.resource with
    | some r => r.text.length + r.blob.length
    | none => 0
  else c.jsonLen

/-- `contentSize` (pkg/agents/truncate.go). -/
def contentSize : List Content → Nat
  | [] => 0
  | c :: cs => partSize c + contentSize cs

/-- The spill-file extension: ".txt" when every part is textual, ".json"
otherwise (the extension loop of `truncateToolResult` and the allText loop
of `writeFullResult` compute the same condition). -/
def spillExt (content : List Content) : String :=
  if content.all (fun c => isTextType c.type) then ".txt" else ".json"

/-- `filepath.Join(".nanobot", sanitize(sessionID), "truncated-outputs",
sanitize(tool)+"-"+sanitize(callID)+ext)`.  The sanitised components are
nonempty, slash-free and free of leading dots, so Join is plain "/"
concatenation. -/
def spillPath (sessionID toolName callID ext : String) : String :=
  ".nanobot/" ++ sanitizePathComponent sessionID ++ "/truncated-outputs/" ++
    sanitizePathComponent toolName ++ "-" ++ sanitizePathComponent callID ++ ext

/-- What `writeFullResult` persists. -/
inductive SpillData
  | txt (b : ByteStr)
  | jsonArr (cs : List Content)
deriving DecidableEq, Repr

/-- A spill file: its path and payload. -/
structure SpillFile where
  path : String
  data : SpillData
deriving DecidableEq, Repr

/-- `writeFullResult` (pkg/agents/truncate.go), the filesystem write
modelled as the returned payload: the "\n"-joined texts when all parts are
textual, else the indented JSON marshalling of the content list (an
external encoding, kept symbolically). -/
def writeFullResult (content : List Content) : SpillData :=
  if content.all (fun c => isTextType c.type) then
    .txt (List.intercalate (asciiBytes "\n") (content.map (·.text)))
  else .jsonArr content

/-- A fresh text part (`mcp.Content{Type: "text", Text: t}`; its JSON size
is irrelevant, every consumer takes the text branch). -/
def textPart (t : ByteStr) : Content :=
  { type := asciiBytes "text", text := t, data := [], resource := none,
    meta := [], jsonLen := 0 }

/-- The trailing notice `"\n\n[Truncated: full output available at <path>]"`. -/
def truncSuffix (path : String) : ByteStr :=
  asciiBytes "\n\n[Truncated: full output available at " ++ asciiBytes path ++
    asciiBytes "]"

/-- The replacement note `"[<type> content written to <path>]"` for a
non-text part. -/
def noteBytes (ty : ByteStr) (path : String) : ByteStr :=
  asciiBytes "[" ++ ty ++ asciiBytes " content written to " ++
    asciiBytes path ++ asciiBytes "]"

/-- The content loop of `buildTruncatedContent`: while budget remains,
texts are cut at the byte boundary and non-text parts are replaced by
notes appended whole (Nat subtraction clamps the remaining budget at 0,
matching Go's `remaining <= 0` loop guard on a possibly negative int). -/
def buildLoop (path : String) : List Content → Nat → List Content
  | _, 0 => []
  | [], _ => []
  | c :: cs, r + 1 =>
    if isTextType c.type then
      let t := c.text.take (r + 1)
      textPart t :: buildLoop path cs (r + 1 - t.length)
    else
      let note := noteBytes c.type path
      textPart note :: buildLoop path cs (r + 1 - note.length)

/-- `buildTruncatedContent` (pkg/agents/truncate.go): reserve the suffix,
consume the remaining budget, then append the trailing notice. -/
def buildTruncatedContent (content : List Content) (budget : Nat)
    (path : String) : List Content :=
  buildLoop path content (budget - (truncSuffix path).length) ++
    [textPart (truncSuffix path)]

/-- The largest replacement-note length over the non-text parts: the
amount by which one note appended whole may overshoot the budget. -/
def noticeOverhead (path : String) : List Content → Nat
  | [] => 0
  | c :: cs =>
    if isTextType c.type then noticeOverhead path cs
    else max (noteBytes c.type path).length (noticeOverhead path cs)

/-- `types.CallResult` (the tool-call output whose content is replaced;
every other field is copied). -/
structure CallResult where
  content : List Content
  isError : Bool
  chatResponse : Bool
  agent : String
  model : String
  stopReason : String
deriving DecidableEq, Repr

/-- `types.ToolCallResult`. -/
structure BToolCallResult where
  outputRole : String
  callID : String
  output : CallResult
deriving DecidableEq, Repr

/-- `types.CompletionItem`, reduced to the fields the truncation code
touches. -/
structure BItem where
  id : String
  toolCallResult : Option BToolCallResult
deriving DecidableEq, Repr

/-- `types.Message`, reduced likewise. -/
structure BMsg where
  id : String
  role : String
  items : List BItem
deriving DecidableEq, Repr

/-- The notice prepended when persisting the full output failed (the Go
text interpolates the error; the model keeps a fixed marker). -/
def persistFailNotice (path : String) : Content :=
  textPart (asciiBytes "Note: failed to persist full tool output to " ++
    asciiBytes path ++
    asciiBytes ". Only truncated output is available.")

/-- `truncateToolResult` (pkg/agents/truncate.go).  The filesystem is
modelled by the second component — the spill file written, `none` when the
message passes through or the write failed; `writeFails` mirrors a
`writeFullResult` error, which prepends a notice part to the truncated
content. -/
def truncateToolResult (sessionID toolName callID : String) (writeFails : Bool)
    (msg : Option BMsg) : Option BMsg × Option SpillFile :=
  match msg with
  | none => (none, none)
  | some m =>
    match m.items with
    | [] => (some m, none)
    | item0 :: _ =>
      match item0.toolCallResult with
      | none => (some m, none)
      | some result =>
        let content := result.output.content
        if content.isEmpty then (some m, none)
        else if hasSkipTruncation content then (some m, none)
        else if contentSize content ≤ maxToolResultSize then (some m, none)
        else
          let ext := spillExt content
          let filePath := spillPath sessionID toolName callID ext
          let truncated := buildTruncatedContent content maxToolResultSize filePath
          let truncated :=
            if writeFails then persistFailNotice filePath :: truncated
            else truncated
          let newOutput := { result.output with content := truncated }
          let newResult : BToolCallResult :=
            { outputRole := "", callID := result.callID, output := newOutput }
          let newItem : BItem := { id := item0.id, toolCallResult := some newResult }
          (some { id := m.id, role := m.role, items := [newItem] },
           if writeFails then none
           else some { path := filePath, data := writeFullResult content })

/-! # Theorems -/

/-- Every character surviving the sanitisation pipeline is in the allowed
class. -/
theorem mem_sanitize_allowed (s : String) (c : Char)
    (h : c ∈ ((s.data.map (fun c => if isAllowedChar c then c else '_')).dropWhile
      (fun c => c = '.')).take 100) : isAllowedChar c = true := by
  have h1 : c ∈ s.data.map (fun c => if isAllowedChar c then c else '_') :=
    ((List.take_sublist _ _).trans (List.dropWhile_sublist _)).subset h
  rcases List.mem_map.1 h1 with ⟨d, _, rfl⟩
  by_cases hd : isAllowedChar d = true
  · simp [hd]
  · simp only [hd, Bool.false_eq_true, if_false]
    decide

/-- The head of `dropWhile p` does not satisfy `p`. -/
theorem head?_dropWhile_false {α : Type} (p : α → Bool) (l : List α) (c : α)
    (h : (l.dropWhile p).head? = some c) : p c = false := by
  induction l with
  | nil => simp [List.dropWhile] at h
  | cons a t ih =>
    by_cases ha : p a = true
    · rw [List.dropWhile_cons_of_pos ha] at h
      exact ih h
    · rw [List.dropWhile_cons_of_neg ha] at h
      simp only [List.head?_cons, Option.some.injEq] at h
      subst h
      simpa using ha

/-- Taking a positive number of elements preserves the head. -/
theorem head?_take_pos {α : Type} (l : List α) (n : ℕ) (hn : 0 < n) :
    (l.take n).head? = l.head? := by
  cases l with
  | nil => simp
  | cons a t =>
    cases n with
    | zero => omega
    | succ m => simp [List.take_succ_cons]

/-- A string whose characters are all in the allowed class, that is nonempty,
at most 100 long, and does not start with a dot, is a fixed point of
`sanitizePathComponent`. -/
theorem sanitize_fixed_point (t : String)
    (hne : t.data ≠ [])
    (hlen : t.data.length ≤ 100)
    (hmem : ∀ c ∈ t.data, isAllowedChar c = true)
    (hhead : ∀ c, t.data.head? = some c → c ≠ '.') :
    sanitizePathComponent t = t := by
  obtain ⟨c, rest, hct⟩ : ∃ c rest, t.data = c :: rest := by
    cases h : t.data with
    | nil => exact absurd h hne
    | cons c rest => exact ⟨c, rest, rfl⟩
  have hmap : t.data.map (fun c => if isAllowedChar c then c else '_') = t.data := by
    have := List.map_congr_left (f := fun c => if isAllowedChar c then c else '_')
      (g := id) (l := t.data) (fun c hc => by simp [hmem c hc])
    simpa using this
  have hcdot : c ≠ '.' := hhead c (by rw [hct]; rfl)
  have hdrop : t.data.dropWhile (fun c => c = '.') = t.data := by
    rw [hct]
    exact List.dropWhile_cons_of_neg (by simpa using hcdot)
  have htake : t.data.take 100 = t.data := List.take_of_length_le hlen
  unfold sanitizePathComponent
  simp only [hmap, hdrop, htake]
  rw [hct]
  simp only [List.isEmpty_cons, Bool.false_eq_true, if_false]
  rw [← hct]

/-- The sanitisation pipeline's raw list: every surviving character is
allowed, the length is at most 100, and the head is never a dot. -/
theorem sanitize_core_shape (s : String) :
    let l := ((s.data.map (fun c => if isAllowedChar c then c else '_')).dropWhile
      (fun c => c = '.')).take 100
    (∀ c ∈ l, isAllowedChar c = true) ∧ l.length ≤ 100 ∧
      (∀ c, l.head? = some c → c ≠ '.') := by
  intro l
  refine ⟨fun c hc => mem_sanitize_allowed s c hc, List.length_take_le 100 _, ?_⟩
  intro c hc hdot
  have h1 : ((s.data.map (fun c => if isAllowedChar c then c else '_')).dropWhile
      (fun c => c = '.')).head? = some c := by
    rw [← head?_take_pos _ 100 (by omega)]
    exact hc
  have := head?_dropWhile_false (fun c => c = '.') _ c h1
  rw [hdot] at this
  simp at this

/-- C9: `sanitizePathComponent` is idempotent, and its result is either the
literal "unnamed" or a nonempty string of at most 100 characters drawn from
the class `[A-Za-z0-9_.-]` (the claimed regular expression
`^[A-Za-z0-9_.-]{1,100}$`, which "unnamed" also matches). -/
theorem C9_sanitize_idempotent_and_shape (s : String) :
    sanitizePathComponent (sanitizePathComponent s) = sanitizePathComponent s ∧
    (sanitizePathComponent s = "unnamed" ∨
      (1 ≤ (sanitizePathComponent s).data.length ∧
        (sanitizePathComponent s).data.length ≤ 100 ∧
        ∀ c ∈ (sanitizePathComponent s).data, isAllowedChar c = true)) := by
  obtain ⟨hmem, hlen, hhead⟩ := sanitize_core_shape s
  set l : List Char :=
    ((s.data.map (fun c => if isAllowedChar c then c else '_')).dropWhile
      (fun c => c = '.')).take 100 with hl
  have hval : sanitizePathComponent s = if l.isEmpty then "unnamed" else String.mk l := by
    unfold sanitizePathComponent
    rfl
  by_cases hemp : l.isEmpty
  · rw [hval, if_pos hemp]
    refine ⟨?_, Or.inl rfl⟩
    apply sanitize_fixed_point <;> decide
  · rw [hval, if_neg hemp]
    have hne : l ≠ [] := by simpa [List.isEmpty_iff] using hemp
    have hdata : (String.mk l).data = l := rfl
    constructor
    · exact sanitize_fixed_point (String.mk l) (hdata ▸ hne) (hdata ▸ hlen)
        (hdata ▸ hmem) (hdata ▸ hhead)
    · right
      rw [hdata]
      have := List.length_pos.2 hne
      exact ⟨by omega, hlen, hmem⟩

/-- C6 counterexample: contrary to the claim, `ParseToolRef "alias:server/tool"`
published with the empty default does not yield "alias": `strings.Cut` puts the
text before the colon into the server/tool part and the text after it into the
alias field, so the result is "server/tool". -/
theorem C6_counterexample :
    (ParseToolRef "alias:server/tool").PublishedName "" ≠ "alias" := by decide

/-- C6 (amended): `ParseToolRef "alias:server/tool"` yields a ToolRef whose
`PublishedName ""` is "server/tool" (the text after the colon is the alias, so
the alias-first spelling is not recognised; `ParseToolRef "server/tool:alias"`
is the form whose `PublishedName ""` is "alias"), and `ParseToolRef "server"`
yields a ToolRef whose `PublishedName "x"` is "x". -/
theorem C6_amended :
    (ParseToolRef "alias:server/tool").PublishedName "" = "server/tool" ∧
    (ParseToolRef "server/tool:alias").PublishedName "" = "alias" ∧
    (ParseToolRef "server").PublishedName "x" = "x" := by decide

theorem lookup_delete {α : Type} (l : List (String × α)) (key k : String) :
    lookupAL (deleteAL l key) k = if k = key then none else lookupAL l k := by
  induction l with
  | nil => simp [deleteAL, lookupAL, ite_self]
  | cons kv rest ih =>
    obtain ⟨a, b⟩ := kv
    by_cases hak : a = key
    · subst hak
      rw [deleteAL, if_pos rfl, ih]
      by_cases hk : k = a
      · simp [hk]
      · have hak' : ¬a = k := fun h => hk h.symm
        simp [lookupAL, hk, hak']
    · rw [deleteAL, if_neg hak]
      by_cases hka : a = k
      · subst hka
        simp [lookupAL, fun h : a = key => hak h]
      · simp [lookupAL, hka, ih]

theorem lookup_set_self {α : Type} (l : List (String × α)) (key : String)
    (v : α) : lookupAL (setAL l key v) key = some v := by
  induction l with
  | nil => simp [setAL, lookupAL]
  | cons kv rest ih =>
    obtain ⟨a, b⟩ := kv
    by_cases hak : a = key
    · simp [setAL, lookupAL, hak]
    · simp [setAL, lookupAL, hak, ih]

theorem lookup_set_ne {α : Type} (l : List (String × α)) (key k : String)
    (v : α) (h : k ≠ key) : lookupAL (setAL l key v) k = lookupAL l k := by
  induction l with
  | nil => simp [setAL, lookupAL, Ne.symm h]
  | cons kv rest ih =>
    obtain ⟨a, b⟩ := kv
    by_cases hak : a = key
    · subst hak
      simp [setAL, lookupAL, Ne.symm h]
    · simp [setAL, lookupAL, hak, ih]

theorem lookup_dropClients (l : SessionAttrs) (k : String) :
    lookupAL (dropClientKeys l) k =
      if hasPfx "clients/" k then none else lookupAL l k := by
  induction l with
  | nil => simp [lookupAL, dropClientKeys, ite_self]
  | cons kv rest ih =>
    obtain ⟨a, b⟩ := kv
    by_cases hpa : hasPfx "clients/" a
    · rw [dropClientKeys, if_pos (by simp [hpa]), ih]
      by_cases hka : a = k
      · subst hka
        simp [hpa]
      · simp [lookupAL, hka]
    · rw [dropClientKeys, if_neg (by simp [hpa])]
      by_cases hka : a = k
      · subst hka
        simp [lookupAL, hpa]
      · simp [lookupAL, hka, ih]

/-- C7: the inbound filter installed by `Sync` (via `initSubscriptions`)
drops every `notifications/resources/updated` message whose URI the session
has not subscribed to, and passes one for a subscribed URI through
unchanged. -/
theorem C7_subscription_filter_drops_unsubscribed (u : String)
    (subs : Option (List String)) :
    (subsContains subs u = false →
      subscriptionsFilter subs ⟨"notifications/resources/updated", .uriParams u⟩
        = none) ∧
    (subsContains subs u = true →
      subscriptionsFilter subs ⟨"notifications/resources/updated", .uriParams u⟩
        = some ⟨"notifications/resources/updated", .uriParams u⟩) := by
  cases subs with
  | none => simp [subscriptionsFilter, subsContains]
  | some l =>
    by_cases hu : u ∈ l
    · simp [subscriptionsFilter, subsContains, hu]
    · simp [subscriptionsFilter, subsContains, hu]

/-- C7 witness: with subscription set {file:///a.txt}, an update for
file:///b.txt is dropped and one for file:///a.txt passes unchanged. -/
theorem C7_subscription_filter_drops_unsubscribed_witness :
    subscriptionsFilter (some ["file:///a.txt"])
      ⟨"notifications/resources/updated", .uriParams "file:///b.txt"⟩ = none ∧
    subscriptionsFilter (some ["file:///a.txt"])
      ⟨"notifications/resources/updated", .uriParams "file:///a.txt"⟩ =
      some ⟨"notifications/resources/updated", .uriParams "file:///a.txt"⟩ :=
  ⟨(C7_subscription_filter_drops_unsubscribed "file:///b.txt"
      (some ["file:///a.txt"])).1 (by decide),
   (C7_subscription_filter_drops_unsubscribed "file:///a.txt"
      (some ["file:///a.txt"])).2 (by decide)⟩

/-- C4 counterexample: a `Sync` whose computed hash differs from the stored
one does NOT delete the `resourceTemplateMappingCache` attribute —
`Refresh` deletes the other mapping keys but never this one, contradicting
the claim that all mapping caches including the URI→match memoization are
deleted. -/
theorem C4_counterexample :
    lookupAL
      (SyncHash "newhash"
        [(resourceTemplateMappingCacheKey, .dataAttr "memo"),
         (configHashSessionKey, .strAttr "oldhash")]).1
      resourceTemplateMappingCacheKey ≠ none := by decide

/-- C4 (amended): when the computed `sha256{config, env}` differs from the
stored hash, the Sync tail runs `Refresh(close=true)`, which closes every
cached `clients/` attribute that is a client and deletes the
`toolMapping`, `promptMapping`, `resourceMapping`, `resourceTemplateMapping`
(together with the `agents`, `currentAgent` and `currentAgentTargetMapping`)
keys — but not the `resourceTemplateMappingCache` memoization, which
survives unchanged — and then stores the new hash; when the hash is
unchanged, nothing is deleted or closed and only the hash is re-stored. -/
theorem C4_amended_sync_refresh (hash : String) (attrs : SessionAttrs) :
    (hash ≠ storedConfigHash attrs →
      (SyncHash hash attrs).2 = closedClientKeys attrs ∧
      lookupAL (SyncHash hash attrs).1 toolMappingKey = none ∧
      lookupAL (SyncHash hash attrs).1 promptMappingKey = none ∧
      lookupAL (SyncHash hash attrs).1 resourceMappingKey = none ∧
      lookupAL (SyncHash hash attrs).1 resourceTemplateMappingKey = none ∧
      lookupAL (SyncHash hash attrs).1 agentsSessionKey = none ∧
      lookupAL (SyncHash hash attrs).1 currentAgentSessionKey = none ∧
      lookupAL (SyncHash hash attrs).1 currentAgentTargetSessionKey = none ∧
      (∀ k, hasPfx "clients/" k = true →
        lookupAL (SyncHash hash attrs).1 k = none) ∧
      lookupAL (SyncHash hash attrs).1 resourceTemplateMappingCacheKey =
        lookupAL attrs resourceTemplateMappingCacheKey ∧
      lookupAL (SyncHash hash attrs).1 configHashSessionKey =
        some (.strAttr hash)) ∧
    (hash = storedConfigHash attrs →
      SyncHash hash attrs = (setAL attrs configHashSessionKey (.strAttr hash), [])) := by
  constructor
  · intro hdiff
    have hsync : SyncHash hash attrs =
        (setAL (Refresh true attrs).1 configHashSessionKey (.strAttr hash),
          (Refresh true attrs).2) := by
      unfold SyncHash
      rw [if_pos hdiff]
    have hclosed : (Refresh true attrs).2 = closedClientKeys attrs := by
      unfold Refresh
      simp
    have hlook : ∀ k : String, lookupAL (Refresh true attrs).1 k =
        if k = currentAgentTargetSessionKey then none
        else if k = agentsSessionKey then none
        else if k = resourceTemplateMappingKey then none
        else if k = resourceMappingKey then none
        else if k = promptMappingKey then none
        else if k = currentAgentSessionKey then none
        else if k = toolMappingKey then none
        else if hasPfx "clients/" k then none
        else lookupAL attrs k := by
      intro k
      unfold Refresh
      simp only [if_true]
      rw [lookup_delete, lookup_delete, lookup_delete, lookup_delete,
        lookup_delete, lookup_delete, lookup_delete, lookup_dropClients]
    rw [hsync]
    refine ⟨hclosed, ?_, ?_, ?_, ?_, ?_, ?_, ?_, ?_, ?_, ?_⟩
    · rw [lookup_set_ne _ _ _ _ (by decide), hlook]
      simp +decide [reduceIte]
    · rw [lookup_set_ne _ _ _ _ (by decide), hlook]
      simp +decide [reduceIte]
    · rw [lookup_set_ne _ _ _ _ (by decide), hlook]
      simp +decide [reduceIte]
    · rw [lookup_set_ne _ _ _ _ (by decide), hlook]
      simp +decide [reduceIte]
    · rw [lookup_set_ne _ _ _ _ (by decide), hlook]
      simp +decide [reduceIte]
    · rw [lookup_set_ne _ _ _ _ (by decide), hlook]
      simp +decide [reduceIte]
    · rw [lookup_set_ne _ _ _ _ (by decide), hlook]
      simp +decide [reduceIte]
    · intro k hk
      have hne : ∀ t : String, hasPfx "clients/" t = false → k ≠ t := by
        intro t ht hkt
        rw [hkt, ht] at hk
        exact absurd hk (by decide)
      rw [lookup_set_ne _ _ _ _ (hne _ (by decide)), hlook,
        if_neg (hne currentAgentTargetSessionKey (by decide)),
        if_neg (hne agentsSessionKey (by decide)),
        if_neg (hne resourceTemplateMappingKey (by decide)),
        if_neg (hne resourceMappingKey (by decide)),
        if_neg (hne promptMappingKey (by decide)),
        if_neg (hne currentAgentSessionKey (by decide)),
        if_neg (hne toolMappingKey (by decide)), if_pos hk]
    · rw [lookup_set_ne _ _ _ _ (by decide), hlook, if_neg (by decide),
        if_neg (by decide), if_neg (by decide), if_neg (by decide),
        if_neg (by decide), if_neg (by decide), if_neg (by decide),
        if_neg (by decide)]
    · rw [lookup_set_self]
  · intro heq
    unfold SyncHash
    rw [if_neg (by simpa using heq)]

/-- C4 witness: a concrete session with one cached client, the mapping
caches, the memoization cache and a stored hash, synced with a different
hash and with the same hash. -/
theorem C4_amended_sync_refresh_witness :
    ("new" ≠ storedConfigHash
        [("clients/up", .clientAttr false), (toolMappingKey, .dataAttr "tm"),
         (resourceTemplateMappingCacheKey, .dataAttr "memo"),
         (configHashSessionKey, .strAttr "old")] ∧
      (SyncHash "new"
        [("clients/up", .clientAttr false), (toolMappingKey, .dataAttr "tm"),
         (resourceTemplateMappingCacheKey, .dataAttr "memo"),
         (configHashSessionKey, .strAttr "old")]).2 = ["clients/up"]) ∧
    ("old" = storedConfigHash
        [(configHashSessionKey, .strAttr "old")] ∧
      SyncHash "old" [(configHashSessionKey, .strAttr "old")] =
        (setAL [(configHashSessionKey, .strAttr "old")] configHashSessionKey
          (.strAttr "old"), [])) := by
  constructor
  · refine ⟨by decide, ?_⟩
    exact ((C4_amended_sync_refresh "new" _).1 (by decide)).1
  · exact ⟨by decide, (C4_amended_sync_refresh "old" _).2 (by decide)⟩

theorem lookup_of_mem_nodup {α : Type} (l : List (String × α)) (kd : String × α)
    (h : kd ∈ l) (hnodup : (l.map (·.1)).Nodup) : lookupAL l kd.1 = some kd.2 := by
  induction l with
  | nil => simp at h
  | cons a rest ih =>
    obtain ⟨k, v⟩ := a
    simp only [List.map_cons, List.nodup_cons] at hnodup
    rcases List.mem_cons.1 h with heq | hmem
    · subst heq
      simp [lookupAL]
    · have hne : k ≠ kd.1 := by
        intro hk
        exact hnodup.1 (hk ▸ List.mem_map_of_mem (·.1) hmem)
      simp [lookupAL, hne, ih hmem hnodup.2]

/-- The missing-keys output of the `reconcileEnv` loop coincides with the
spec-side `missingRequired` filter over the original env map, provided the
config keys are distinct and do not shadow the bearer-token entry. -/
theorem reconcileEnvLoop_missing (cfg : List (String × EnvDef)) :
    ∀ em em0 : EnvMap,
    (∀ k, (k ∈ cfg.map (·.1) ∨ k = "http:bearer-token") →
      lookupAL em k = lookupAL em0 k) →
    (cfg.map (·.1)).Nodup →
    "http:bearer-token" ∉ cfg.map (·.1) →
    (reconcileEnvLoop cfg em).2 = (missingRequired cfg em0).map (·.1) := by
  induction cfg with
  | nil => intro em em0 _ _ _; simp [reconcileEnvLoop, missingRequired]
  | cons a rest ih =>
    intro em em0 hag hnodup hb
    obtain ⟨k, d⟩ := a
    simp only [List.map_cons, List.nodup_cons] at hnodup
    have hbk : k ≠ "http:bearer-token" := by
      intro hk
      exact hb (by simp [hk])
    have hbrest : "http:bearer-token" ∉ rest.map (·.1) := by
      intro hm
      exact hb (by simp [hm])
    have hgv : getEnvVal em k d = getEnvVal em0 k d := by
      unfold getEnvVal
      rw [hag k (Or.inl (by simp)), hag "http:bearer-token" (Or.inr rfl)]
    have hagrest : ∀ k', (k' ∈ rest.map (·.1) ∨ k' = "http:bearer-token") →
        lookupAL em k' = lookupAL em0 k' := by
      intro k' hk'
      rcases hk' with h | h
      · exact hag k' (Or.inl (by simp [h]))
      · exact hag k' (Or.inr h)
    rw [reconcileEnvLoop]
    by_cases hbad : (getEnvVal em k d == "" && !d.optional) = true
    · rw [if_pos hbad]
      have hbad0 : (getEnvVal em0 k d == "" && !d.optional) = true := hgv ▸ hbad
      simp only [missingRequired, List.filter_cons, hbad0, if_true, List.map_cons]
      rw [ih em em0 hagrest hnodup.2 hbrest]
      rfl
    · rw [if_neg hbad]
      have hbad0 : ¬ (getEnvVal em0 k d == "" && !d.optional) = true := hgv ▸ hbad
      have hagset : ∀ k', (k' ∈ rest.map (·.1) ∨ k' = "http:bearer-token") →
          lookupAL (setAL em k (getEnvVal em k d)) k' = lookupAL em0 k' := by
        intro k' hk'
        have hk'k : k' ≠ k := by
          rcases hk' with h | h
          · intro he
            exact hnodup.1 (he ▸ h)
          · intro he
            exact hbk (he ▸ h)
        rw [lookup_set_ne _ _ _ _ hk'k]
        exact hagrest k' hk'
      rw [ih _ em0 hagset hnodup.2 hbrest]
      simp only [missingRequired, List.filter_cons]
      rw [if_neg hbad0]

/-- C5 counterexample: a config declaring the single non-optional variable
"K" with `useBearerToken`, under an env map that lacks "K" but carries a
bearer token — initialize succeeds, falsifying the claim that any
non-optional variable absent from the env map fails initialize with
-32602. -/
theorem C5_counterexample :
    lookupAL [("http:bearer-token", "tok")] "K" = none ∧
    reconcileEnv
      [("K", ⟨"", "needs K", [], false, none, true⟩)]
      [("http:bearer-token", "tok")] =
      .ok [("http:bearer-token", "tok"), ("K", "tok")] := ⟨by decide, rfl⟩

/-- C5 (amended): for distinct config keys not shadowing the bearer-token
entry, initialize's env gate fails with a -32602 error carrying one
`{name, description, default(, options)}` entry per required variable that
`getEnvVal` resolves to "" (absent from the env map and not redeemed by a
`useBearerToken` fallback or, for optional variables, a default), and
returns no error when there is no such variable. -/
theorem C5_amended_missing_env (cfgEnv : List (String × EnvDef)) (envMap : EnvMap)
    (hnodup : (cfgEnv.map (·.1)).Nodup)
    (hb : "http:bearer-token" ∉ cfgEnv.map (·.1)) :
    (missingRequired cfgEnv envMap = [] →
      ∃ em, reconcileEnv cfgEnv envMap = .ok em ∧
        handleInitializeEnvGate (.ok ()) cfgEnv envMap = .ok ()) ∧
    (missingRequired cfgEnv envMap ≠ [] →
      reconcileEnv cfgEnv envMap =
        .error { code := -32602,
                 missingEnv := (missingRequired cfgEnv envMap).map (fun kd =>
                   { name := kd.1, description := kd.2.description,
                     dflt := kd.2.dflt,
                     options := if kd.2.options.isEmpty then none
                       else some kd.2.options }) } ∧
      ∀ e, reconcileEnv cfgEnv envMap = .error e →
        handleInitializeEnvGate (.ok ()) cfgEnv envMap = .error e) := by
  have hmiss : (reconcileEnvLoop cfgEnv envMap).2 =
      (missingRequired cfgEnv envMap).map (·.1) :=
    reconcileEnvLoop_missing cfgEnv envMap envMap (fun _ _ => rfl) hnodup hb
  constructor
  · intro hempty
    refine ⟨(reconcileEnvLoop cfgEnv envMap).1, ?_, ?_⟩
    · unfold reconcileEnv
      rw [if_pos (by simp [hmiss, hempty])]
    · unfold handleInitializeEnvGate reconcileEnv
      rw [if_pos (by simp [hmiss, hempty])]
  · intro hne
    have hentries : ((missingRequired cfgEnv envMap).map (·.1)).map
        (missingEnvEntryFor cfgEnv) =
        (missingRequired cfgEnv envMap).map (fun kd =>
          ({ name := kd.1, description := kd.2.description, dflt := kd.2.dflt,
             options := if kd.2.options.isEmpty then none
               else some kd.2.options } : MissingEnvEntry)) := by
      rw [List.map_map]
      apply List.map_congr_left
      intro kd hkd
      have hkdcfg : kd ∈ cfgEnv := List.mem_of_mem_filter hkd
      have hlk : lookupAL cfgEnv kd.1 = some kd.2 :=
        lookup_of_mem_nodup cfgEnv kd hkdcfg hnodup
      simp [missingEnvEntryFor, hlk]
    have herr : reconcileEnv cfgEnv envMap =
        .error { code := -32602,
                 missingEnv := (missingRequired cfgEnv envMap).map (fun kd =>
                   { name := kd.1, description := kd.2.description,
                     dflt := kd.2.dflt,
                     options := if kd.2.options.isEmpty then none
                       else some kd.2.options }) } := by
      unfold reconcileEnv
      rw [if_neg (by simp [hmiss, hne])]
      rw [hmiss, hentries]
    refine ⟨herr, ?_⟩
    intro e he
    unfold handleInitializeEnvGate
    rw [he]

/-- C5 witness: a config requiring OPENAI_API_KEY under an empty env fails
with -32602 and the single missingEnv entry; a config with only an optional
variable passes the gate. -/
theorem C5_amended_missing_env_witness :
    (missingRequired
        [("OPENAI_API_KEY", ⟨"", "the key", [], false, none, false⟩)] [] ≠ [] ∧
      reconcileEnv
        [("OPENAI_API_KEY", ⟨"", "the key", [], false, none, false⟩)] [] =
        .error ⟨-32602, [⟨"OPENAI_API_KEY", "the key", "", none⟩]⟩) ∧
    (missingRequired
        [("MODE", ⟨"fast", "speed", ["fast", "slow"], true, none, false⟩)] [] = [] ∧
      handleInitializeEnvGate (.ok ())
        [("MODE", ⟨"fast", "speed", ["fast", "slow"], true, none, false⟩)] [] = .ok ()) := by
  constructor
  · refine ⟨by decide, ?_⟩
    have h := ((C5_amended_missing_env
      [("OPENAI_API_KEY", ⟨"", "the key", [], false, none, false⟩)] []
      (by decide) (by decide)).2 (by decide)).1
    rw [h]
    rfl
  · refine ⟨by decide, ?_⟩
    obtain ⟨_, _, h2⟩ := (C5_amended_missing_env
      [("MODE", ⟨"fast", "speed", ["fast", "slow"], true, none, false⟩)] [] (by decide) (by decide)).1 (by decide)
    exact h2

theorem lookup_eq_none_of_not_mem {α : Type} (l : List (String × α)) (k : String)
    (h : k ∉ l.map (·.1)) : lookupAL l k = none := by
  induction l with
  | nil => rfl
  | cons a rest ih =>
    obtain ⟨a1, a2⟩ := a
    simp only [List.map_cons, List.mem_cons] at h
    push_neg at h
    rw [lookupAL, if_neg (fun he => h.1 he.symm), ih h.2]

theorem mem_keys_set_self {α : Type} (l : List (String × α)) (key : String)
    (v : α) : key ∈ (setAL l key v).map (·.1) := by
  induction l with
  | nil => simp [setAL]
  | cons a rest ih =>
    obtain ⟨a1, a2⟩ := a
    by_cases h : a1 = key
    · simp [setAL, h]
    · simp [setAL, h, ih]

theorem mem_keys_set_of_mem {α : Type} (l : List (String × α)) (key k : String)
    (v : α) (h : k ∈ l.map (·.1)) : k ∈ (setAL l key v).map (·.1) := by
  induction l with
  | nil => simp at h
  | cons a rest ih =>
    obtain ⟨a1, a2⟩ := a
    simp only [List.map_cons, List.mem_cons] at h
    by_cases ha : a1 = key
    · subst ha
      rcases h with h | h
      · simp [setAL, h]
      · simp [setAL, List.mem_cons, h]
    · rcases h with h | h
      · simp [setAL, ha, h]
      · simp only [setAL, if_neg ha, List.map_cons, List.mem_cons]
        exact Or.inr (ih h)

theorem keys_set_subset {α : Type} (l : List (String × α)) (key k : String)
    (v : α) (h : k ∈ (setAL l key v).map (·.1)) :
    k ∈ l.map (·.1) ∨ k = key := by
  induction l with
  | nil =>
    simp only [setAL, List.map_cons, List.map_nil] at h
    rcases List.mem_cons.1 h with h | h
    · exact Or.inr h
    · exact absurd h (List.not_mem_nil k)
  | cons a rest ih =>
    obtain ⟨a1, a2⟩ := a
    by_cases ha : a1 = key
    · simp only [setAL, if_pos ha, List.map_cons] at h
      exact Or.inl h
    · simp only [setAL, if_neg ha, List.map_cons] at h
      rcases List.mem_cons.1 h with h | h
      · exact Or.inl (List.mem_cons.2 (Or.inl h))
      · rcases ih h with h' | h'
        · exact Or.inl (List.mem_cons.2 (Or.inr h'))
        · exact Or.inr h'

theorem setAL_isEmpty_false {α : Type} (l : List (String × α)) (key : String)
    (v : α) : (setAL l key v).isEmpty = false := by
  cases l with
  | nil => rfl
  | cons a rest =>
    obtain ⟨a1, a2⟩ := a
    rw [setAL]
    by_cases h : a1 = key <;> simp [h]

/-- Success path of the `toolCalls` walk: with pairwise distinct call ids
that are not yet recorded, and every call mapped and invokable, the walk
succeeds; the mappings survive, the run is marked done exactly when the
walk started with an empty `toolOutputs` and the response had no tool
calls, previously recorded outputs are untouched, and every tool call of
the response ends up recorded under its call id with done = true. -/
theorem toolCallsGo_ok_spec {ω : Type}
    (invoke : TargetMapping → ToolCall → Except String ω)
    (items : List RespItem) :
    ∀ run : Run ω,
    ((responseToolCalls items).map (·.callID)).Nodup →
    (∀ fc ∈ responseToolCalls items, fc.callID ∉ run.toolOutputs.map (·.1)) →
    (∀ fc ∈ responseToolCalls items,
      ∃ t, lookupAL run.toolToMCPServer fc.name = some t ∧
        ∃ out, invoke t fc = .ok out) →
    ∃ run', toolCallsGo invoke items run = .ok run' ∧
      run'.toolToMCPServer = run.toolToMCPServer ∧
      run'.done = (if run.toolOutputs.isEmpty = true ∧
        responseToolCalls items = [] then true else run.done) ∧
      (∀ k, k ∈ run.toolOutputs.map (·.1) →
        lookupAL run'.toolOutputs k = lookupAL run.toolOutputs k) ∧
      (∀ fc ∈ responseToolCalls items,
        ∃ t out, lookupAL run.toolToMCPServer fc.name = some t ∧
          invoke t fc = .ok out ∧
          lookupAL run'.toolOutputs fc.callID = some ⟨out, true⟩) := by
  induction items with
  | nil =>
    intro run _ _ _
    refine ⟨if run.toolOutputs.isEmpty then { run with done := true } else run,
      rfl, ?_, ?_, ?_, ?_⟩
    · by_cases hemp : run.toolOutputs.isEmpty <;> simp [hemp]
    · by_cases hemp : run.toolOutputs.isEmpty = true
      · simp [hemp, responseToolCalls]
      · simp [hemp, responseToolCalls]
    · by_cases hemp : run.toolOutputs.isEmpty <;> simp [hemp]
    · intro fc hfc
      simp [responseToolCalls] at hfc
  | cons item rest ih =>
    intro run hnodup hnot hmap
    cases hitem : item.toolCall with
    | none =>
      have hcalls : responseToolCalls (item :: rest) = responseToolCalls rest := by
        simp [responseToolCalls, List.filterMap_cons, hitem]
      rw [hcalls] at hnodup hnot hmap
      obtain ⟨run', hgo, h1, h2, h3, h4⟩ := ih run hnodup hnot hmap
      refine ⟨run', ?_, h1, ?_, h3, ?_⟩
      · simp only [toolCallsGo, hitem]
        exact hgo
      · rw [hcalls]
        exact h2
      · rw [hcalls]
        exact h4
    | some fc =>
      have hcalls : responseToolCalls (item :: rest) = fc :: responseToolCalls rest := by
        simp [responseToolCalls, List.filterMap_cons, hitem]
      rw [hcalls] at hnodup hnot hmap
      obtain ⟨t, ht, out, hout⟩ := hmap fc (List.mem_cons_self _ _)
      have hfcnot : fc.callID ∉ run.toolOutputs.map (·.1) :=
        hnot fc (List.mem_cons_self _ _)
      have hcheck : outDone run.toolOutputs fc.callID = false := by
        unfold outDone
        rw [lookup_eq_none_of_not_mem _ _ hfcnot]
      have hfcfresh : fc.callID ∉ (responseToolCalls rest).map (·.callID) :=
        (List.nodup_cons.1 (by simpa using hnodup)).1
      have hnodup' : ((responseToolCalls rest).map (·.callID)).Nodup :=
        (List.nodup_cons.1 (by simpa using hnodup)).2
      set run2 : Run ω :=
        { run with
          toolOutputs :=
            setAL run.toolOutputs fc.callID { output := out, done := true } }
        with hrun2
      have hnot2 : ∀ g ∈ responseToolCalls rest,
          g.callID ∉ run2.toolOutputs.map (·.1) := by
        intro g hg hgmem
        rcases keys_set_subset _ _ _ _ hgmem with h | h
        · exact hnot g (List.mem_cons_of_mem _ hg) h
        · exact hfcfresh (h ▸ List.mem_map_of_mem (·.callID) hg)
      have hmap2 : ∀ g ∈ responseToolCalls rest,
          ∃ t, lookupAL run2.toolToMCPServer g.name = some t ∧
            ∃ out, invoke t g = .ok out := by
        intro g hg
        exact hmap g (List.mem_cons_of_mem _ hg)
      obtain ⟨run', hgo, h1, h2, h3, h4⟩ := ih run2 hnodup' hnot2 hmap2
      refine ⟨run', ?_, h1, ?_, ?_, ?_⟩
      · simp only [toolCallsGo, hitem, hcheck, Bool.false_eq_true, if_false,
          ht, hout]
        exact hgo
      · rw [hcalls]
        rw [h2]
        have hne : run2.toolOutputs.isEmpty = false := setAL_isEmpty_false _ _ _
        simp [hne]
      · intro k hk
        have hkne : k ≠ fc.callID := fun he => hfcnot (he ▸ hk)
        have : lookupAL run'.toolOutputs k = lookupAL run2.toolOutputs k :=
          h3 k (mem_keys_set_of_mem _ _ _ _ hk)
        rw [this, hrun2]
        exact lookup_set_ne _ _ _ _ hkne
      · rw [hcalls]
        intro g hg
        rcases List.mem_cons.1 hg with hgfc | hgrest
        · subst hgfc
          refine ⟨t, out, ht, hout, ?_⟩
          have : lookupAL run'.toolOutputs g.callID =
              lookupAL run2.toolOutputs g.callID :=
            h3 g.callID (mem_keys_set_self _ _ _)
          rw [this, hrun2]
          exact lookup_set_self _ _ _
        · exact h4 g hgrest

/-- Failure path of the `toolCalls` walk: when the tool calls of the
response split as `pre ++ fc :: post` with every call of `pre` mapped and
invokable but `fc`'s name unmapped, the walk fails. -/
theorem toolCallsGo_error_spec {ω : Type}
    (invoke : TargetMapping → ToolCall → Except String ω)
    (items : List RespItem) :
    ∀ (run : Run ω) (pre : List ToolCall) (fc : ToolCall) (post : List ToolCall),
    responseToolCalls items = pre ++ fc :: post →
    ((responseToolCalls items).map (·.callID)).Nodup →
    (∀ g ∈ responseToolCalls items, g.callID ∉ run.toolOutputs.map (·.1)) →
    (∀ g ∈ pre, ∃ t, lookupAL run.toolToMCPServer g.name = some t ∧
      ∃ out, invoke t g = .ok out) →
    lookupAL run.toolToMCPServer fc.name = none →
    ∃ e, toolCallsGo invoke items run = .error e := by
  induction items with
  | nil =>
    intro run pre fc post hsplit _ _ _ _
    simp [responseToolCalls] at hsplit
  | cons item rest ih =>
    intro run pre fc post hsplit hnodup hnot hpre hfc
    cases hitem : item.toolCall with
    | none =>
      have hcalls : responseToolCalls (item :: rest) = responseToolCalls rest := by
        simp [responseToolCalls, List.filterMap_cons, hitem]
      rw [hcalls] at hsplit hnodup hnot
      obtain ⟨e, he⟩ := ih run pre fc post hsplit hnodup hnot hpre hfc
      refine ⟨e, ?_⟩
      simp only [toolCallsGo, hitem]
      exact he
    | some g =>
      have hcalls : responseToolCalls (item :: rest) = g :: responseToolCalls rest := by
        simp [responseToolCalls, List.filterMap_cons, hitem]
      rw [hcalls] at hsplit hnodup hnot
      have hgnot : g.callID ∉ run.toolOutputs.map (·.1) :=
        hnot g (List.mem_cons_self _ _)
      have hcheck : outDone run.toolOutputs g.callID = false := by
        unfold outDone
        rw [lookup_eq_none_of_not_mem _ _ hgnot]
      cases pre with
      | nil =>
        simp only [List.nil_append] at hsplit
        have hgfc : g = fc := (List.cons.injEq _ _ _ _ ▸ hsplit).1
        subst hgfc
        refine ⟨"can not map tool " ++ g.name ++ " to a MCP server", ?_⟩
        simp only [toolCallsGo, hitem, hcheck, Bool.false_eq_true, if_false, hfc]
      | cons p pre' =>
        simp only [List.cons_append, List.cons.injEq] at hsplit
        obtain ⟨hgp, hsplit'⟩ := hsplit
        subst hgp
        obtain ⟨t, ht, out, hout⟩ := hpre g (List.mem_cons_self _ _)
        have hgfresh : g.callID ∉ (responseToolCalls rest).map (·.callID) :=
          (List.nodup_cons.1 (by simpa using hnodup)).1
        have hnodup' : ((responseToolCalls rest).map (·.callID)).Nodup :=
          (List.nodup_cons.1 (by simpa using hnodup)).2
        set run2 : Run ω :=
          { run with
            toolOutputs :=
              setAL run.toolOutputs g.callID { output := out, done := true } }
          with hrun2
        have hnot2 : ∀ g' ∈ responseToolCalls rest,
            g'.callID ∉ run2.toolOutputs.map (·.1) := by
          intro g' hg' hgmem
          rcases keys_set_subset _ _ _ _ hgmem with h | h
          · exact hnot g' (List.mem_cons_of_mem _ hg') h
          · exact hgfresh (h ▸ List.mem_map_of_mem (·.callID) hg')
        have hpre2 : ∀ g' ∈ pre', ∃ t,
            lookupAL run2.toolToMCPServer g'.name = some t ∧
              ∃ out, invoke t g' = .ok out := by
          intro g' hg'
          exact hpre g' (List.mem_cons_of_mem _ hg')
        obtain ⟨e, he⟩ := ih run2 pre' fc post hsplit' hnodup' hnot2 hpre2 hfc
        refine ⟨e, ?_⟩
        simp only [toolCallsGo, hitem, hcheck, Bool.false_eq_true, if_false,
          ht, hout]
        exact he

/-- C3: on a fresh run (empty toolOutputs, not done) whose response tool
calls have distinct call ids: when every call's name maps and its dispatch
succeeds, `toolCalls` succeeds, the run is marked done exactly when the
response contained zero tool calls, and every tool call of the response is
recorded in toolOutputs under its callId with done = true together with its
invocation output; when some call's name cannot be mapped (all earlier
calls succeeding), `toolCalls` fails. -/
theorem C3_tool_calls_termination_and_recording {ω : Type}
    (invoke : TargetMapping → ToolCall → Except String ω) (run : Run ω)
    (hfresh : run.toolOutputs = [])
    (hdone : run.done = false)
    (hnodup : ((responseToolCalls run.responseOutput).map (·.callID)).Nodup) :
    ((∀ fc ∈ responseToolCalls run.responseOutput,
        ∃ t, lookupAL run.toolToMCPServer fc.name = some t ∧
          ∃ out, invoke t fc = .ok out) →
      ∃ run', toolCalls invoke run = .ok run' ∧
        (run'.done = true ↔ responseToolCalls run.responseOutput = []) ∧
        (∀ fc ∈ responseToolCalls run.responseOutput,
          ∃ t out, lookupAL run.toolToMCPServer fc.name = some t ∧
            invoke t fc = .ok out ∧
            lookupAL run'.toolOutputs fc.callID = some ⟨out, true⟩)) ∧
    (∀ pre fc post, responseToolCalls run.responseOutput = pre ++ fc :: post →
      (∀ g ∈ pre, ∃ t, lookupAL run.toolToMCPServer g.name = some t ∧
        ∃ out, invoke t g = .ok out) →
      lookupAL run.toolToMCPServer fc.name = none →
      ∃ e, toolCalls invoke run = .error e) := by
  constructor
  · intro hmap
    obtain ⟨run', hgo, _, h2, _, h4⟩ :=
      toolCallsGo_ok_spec invoke run.responseOutput run hnodup
        (by intro fc _; simp [hfresh]) hmap
    refine ⟨run', hgo, ?_, h4⟩
    rw [h2, hfresh, hdone]
    by_cases hc : responseToolCalls run.responseOutput = []
    · simp [hc]
    · simp [hc]
  · intro pre fc post hsplit hpre hfc
    exact toolCallsGo_error_spec invoke run.responseOutput run pre fc post
      hsplit hnodup (by intro g _; simp [hfresh]) hpre hfc

/-- C3 witness: a run whose response carries one mapped tool call records
its output and is not done; a run with a single unmapped call fails. -/
theorem C3_tool_calls_termination_and_recording_witness :
    (∃ run', toolCalls (ω := String)
        (fun t fc => .ok (t.targetName ++ ":" ++ fc.arguments))
        { responseOutput := [⟨some ⟨"{}", "call1", "read"⟩⟩],
          toolOutputs := [],
          toolToMCPServer := [("read", ⟨"fs", "read"⟩)],
          done := false } = .ok run' ∧
      (run'.done = true ↔
        responseToolCalls [⟨some ⟨"{}", "call1", "read"⟩⟩] = [])) ∧
    (∃ e, toolCalls (ω := String)
        (fun t fc => .ok (t.targetName ++ ":" ++ fc.arguments))
        { responseOutput := [⟨some ⟨"{}", "call1", "ghost"⟩⟩],
          toolOutputs := [],
          toolToMCPServer := [("read", ⟨"fs", "read"⟩)],
          done := false } = .error e) := by
  constructor
  · obtain ⟨run', hok, hiff, _⟩ :=
      (C3_tool_calls_termination_and_recording
        (ω := String) (fun t fc => .ok (t.targetName ++ ":" ++ fc.arguments))
        { responseOutput := [⟨some ⟨"{}", "call1", "read"⟩⟩],
          toolOutputs := [],
          toolToMCPServer := [("read", ⟨"fs", "read"⟩)],
          done := false } rfl rfl (by decide)).1
      (by intro fc hfc
          refine ⟨⟨"fs", "read"⟩, ?_, ⟨"read:" ++ fc.arguments, rfl⟩⟩
          simp [responseToolCalls] at hfc
          subst hfc
          rfl)
    exact ⟨run', hok, hiff⟩
  · exact (C3_tool_calls_termination_and_recording
      (ω := String) (fun t fc => .ok (t.targetName ++ ":" ++ fc.arguments))
      { responseOutput := [⟨some ⟨"{}", "call1", "ghost"⟩⟩],
        toolOutputs := [],
        toolToMCPServer := [("read", ⟨"fs", "read"⟩)],
        done := false } rfl rfl (by decide)).2
      [] ⟨"{}", "call1", "ghost"⟩ [] (by decide) (by intro g hg; simp at hg)
      (by rfl)

/-- When the completer succeeds with a nonempty extracted text, `compact`
returns the fresh summary message (which carries the compaction-summary
meta key) followed by the new input, and archives the previous archive plus
the replaced history. -/
theorem compact_ok_structure
    (completer : CompletionRequest → Except String (Option CompletionResponse))
    (now : Nat) (uuid : Nat → String)
    (req : CompletionRequest) (cur prev : List Msg)
    (hcomp : ∀ q, ∃ resp, completer q = .ok resp ∧
      extractTextFromResponse resp ≠ "") :
    ∃ s, compact completer now uuid req cur prev =
        .ok { compactedInput := s :: (splitHistoryAndNewInput req.input cur).2,
              archivedMessages := prev ++ (splitHistoryAndNewInput req.input cur).1 } ∧
      IsCompactionSummary s = true := by
  obtain ⟨resp, hresp, hne⟩ := hcomp (compactSummaryReq uuid req cur)
  refine ⟨compactSummaryMessage now uuid (extractTextFromResponse resp), ?_, ?_⟩
  · unfold compact
    rw [hresp]
    simp only [if_neg hne]
  · unfold compactSummaryMessage IsCompactionSummary
    simp [lookupAL]

/-- C2: with the default context window (200000, threshold 167000) and a
summariser that succeeds with nonempty text, a request whose token estimate
exceeds the threshold is compacted before the completer call: the input
handed to the completer is exactly one compaction-summary message — the
fresh summary, first — followed by the new-input messages, and the replaced
history is appended to the archived messages; a request at or below the
threshold is not compacted. -/
theorem C2_compaction_before_completer
    (est : List Msg → String → List ToolUseDefinition → Nat)
    (completer : CompletionRequest → Except String (Option CompletionResponse))
    (now : Nat) (uuid : Nat → String)
    (req : CompletionRequest) (cur prevCompacted : List Msg)
    (hnew : ∀ m ∈ (splitHistoryAndNewInput req.input cur).2,
      IsCompactionSummary m = false)
    (hcomp : ∀ q, ∃ resp, completer q = .ok resp ∧
      extractTextFromResponse resp ≠ "") :
    (est req.input req.systemPrompt req.tools > 167000 →
      shouldCompact est req (getContextWindowSize 0) = true ∧
      ∃ s, compactIfNeeded est completer now uuid req cur prevCompacted 0 =
          .ok (s :: (splitHistoryAndNewInput req.input cur).2,
            prevCompacted ++ (splitHistoryAndNewInput req.input cur).1) ∧
        IsCompactionSummary s = true ∧
        (s :: (splitHistoryAndNewInput req.input cur).2).countP
          (fun m => IsCompactionSummary m) = 1) ∧
    (est req.input req.systemPrompt req.tools ≤ 167000 →
      shouldCompact est req (getContextWindowSize 0) = false ∧
      compactIfNeeded est completer now uuid req cur prevCompacted 0 =
        .ok (req.input, prevCompacted)) := by
  have hcw : getContextWindowSize 0 = 200000 := by decide
  have hthr : (835 * (200000 : Int) / 1000) = 167000 := by decide
  constructor
  · intro hover
    have hsc : shouldCompact est req (getContextWindowSize 0) = true := by
      rw [hcw]
      unfold shouldCompact
      rw [if_neg (by norm_num), hthr]
      simp only [decide_eq_true_eq]
      exact_mod_cast hover
    obtain ⟨s, hcompact, hs⟩ :=
      compact_ok_structure completer now uuid req cur prevCompacted hcomp
    refine ⟨hsc, s, ?_, hs, ?_⟩
    · unfold compactIfNeeded
      rw [hsc]
      simp only [if_true]
      rw [hcompact]
    · rw [List.countP_cons]
      have h0 : (splitHistoryAndNewInput req.input cur).2.countP
          (fun m => IsCompactionSummary m) = 0 :=
        List.countP_eq_zero.2 (fun m hm => by simp [hnew m hm])
      simp [h0, hs]
  · intro hunder
    have hsc : shouldCompact est req (getContextWindowSize 0) = false := by
      rw [hcw]
      unfold shouldCompact
      rw [if_neg (by norm_num), hthr]
      simp only [decide_eq_false_iff_not, not_lt]
      exact_mod_cast hunder
    refine ⟨hsc, ?_⟩
    unfold compactIfNeeded
    rw [hsc]
    simp

/-- C2 witness: a two-message conversation whose estimate is 167001 is
compacted into one summary message plus the current request message, with
the prior history archived; with estimate 167000 it is passed through. -/
theorem C2_compaction_before_completer_witness :
    (∃ s, compactIfNeeded (fun _ _ _ => 167001)
        (fun _ => .ok (some ⟨⟨"r", none, "assistant",
          [⟨"ri", some ⟨"text", "THE SUMMARY", []⟩, none, none⟩]⟩⟩))
        7 (fun n => "u" ++ toString n)
        ⟨"m", [⟨"m1", none, "user", []⟩, ⟨"m2", none, "user", []⟩], "", []⟩
        [⟨"m2", none, "user", []⟩] [] 0 =
        .ok (s :: [⟨"m2", none, "user", []⟩], [] ++ [⟨"m1", none, "user", []⟩]) ∧
      IsCompactionSummary s = true) ∧
    compactIfNeeded (fun _ _ _ => 167000)
      (fun _ => .ok (some ⟨⟨"r", none, "assistant",
        [⟨"ri", some ⟨"text", "THE SUMMARY", []⟩, none, none⟩]⟩⟩))
      7 (fun n => "u" ++ toString n)
      ⟨"m", [⟨"m1", none, "user", []⟩, ⟨"m2", none, "user", []⟩], "", []⟩
      [⟨"m2", none, "user", []⟩] [] 0 =
      .ok ([⟨"m1", none, "user", []⟩, ⟨"m2", none, "user", []⟩], []) := by
  constructor
  · obtain ⟨hsc, s, hok, hs, _⟩ :=
      (C2_compaction_before_completer (fun _ _ _ => 167001)
        (fun _ => .ok (some ⟨⟨"r", none, "assistant",
          [⟨"ri", some ⟨"text", "THE SUMMARY", []⟩, none, none⟩]⟩⟩))
        7 (fun n => "u" ++ toString n)
        ⟨"m", [⟨"m1", none, "user", []⟩, ⟨"m2", none, "user", []⟩], "", []⟩
        [⟨"m2", none, "user", []⟩] []
        (by decide)
        (fun q => ⟨some ⟨⟨"r", none, "assistant",
          [⟨"ri", some ⟨"text", "THE SUMMARY", []⟩, none, none⟩]⟩⟩, rfl,
          by decide⟩)).1 (by decide)
    exact ⟨s, by simpa using hok, hs⟩
  · exact ((C2_compaction_before_completer (fun _ _ _ => 167000)
      (fun _ => .ok (some ⟨⟨"r", none, "assistant",
        [⟨"ri", some ⟨"text", "THE SUMMARY", []⟩, none, none⟩]⟩⟩))
      7 (fun n => "u" ++ toString n)
      ⟨"m", [⟨"m1", none, "user", []⟩, ⟨"m2", none, "user", []⟩], "", []⟩
      [⟨"m2", none, "user", []⟩] []
      (by decide)
      (fun q => ⟨some ⟨⟨"r", none, "assistant",
        [⟨"ri", some ⟨"text", "THE SUMMARY", []⟩, none, none⟩]⟩⟩, rfl,
        by decide⟩)).2 (by decide)).2

theorem partSize_textPart (t : ByteStr) : partSize (textPart t) = t.length := by
  simp [partSize, textPart]

theorem isTextType_textPart (t : ByteStr) :
    isTextType (textPart t).type = true := by
  simp [isTextType, textPart]

theorem contentSize_append (l1 l2 : List Content) :
    contentSize (l1 ++ l2) = contentSize l1 + contentSize l2 := by
  induction l1 with
  | nil => simp [contentSize]
  | cons c cs ih =>
    show partSize c + contentSize (cs ++ l2) =
      partSize c + contentSize cs + contentSize l2
    rw [ih]
    omega

theorem buildLoop_zero (path : String) (cs : List Content) :
    buildLoop path cs 0 = [] := by
  cases cs <;> rfl

theorem buildLoop_parts (path : String) (cs : List Content) :
    ∀ r, ∀ p ∈ buildLoop path cs r, ∃ t, p = textPart t := by
  induction cs with
  | nil =>
    intro r p hp
    cases r <;> simp [buildLoop] at hp
  | cons c cs' ih =>
    intro r p hp
    cases r with
    | zero => simp [buildLoop] at hp
    | succ n =>
      simp only [buildLoop] at hp
      by_cases hty : isTextType c.type = true
      · rw [if_pos hty] at hp
        rcases List.mem_cons.1 hp with h | h
        · exact ⟨_, h⟩
        · exact ih _ p h
      · rw [if_neg hty] at hp
        rcases List.mem_cons.1 hp with h | h
        · exact ⟨_, h⟩
        · exact ih _ p h

theorem contentSize_buildLoop_le (path : String) (cs : List Content) :
    ∀ r, contentSize (buildLoop path cs r) ≤ r + noticeOverhead path cs := by
  induction cs with
  | nil =>
    intro r
    cases r <;> simp [buildLoop, contentSize]
  | cons c cs' ih =>
    intro r
    cases r with
    | zero => simp [buildLoop, contentSize]
    | succ n =>
      simp only [buildLoop]
      by_cases hty : isTextType c.type = true
      · rw [if_pos hty]
        have hlen : (c.text.take (n + 1)).length ≤ n + 1 :=
          List.length_take_le (n + 1) c.text
        have hrec := ih (n + 1 - (c.text.take (n + 1)).length)
        rw [noticeOverhead, if_pos hty]
        simp only [contentSize, partSize_textPart]
        omega
      · rw [if_neg hty]
        have h1 := Nat.le_max_left (noteBytes c.type path).length
          (noticeOverhead path cs')
        have h2 := Nat.le_max_right (noteBytes c.type path).length
          (noticeOverhead path cs')
        rw [noticeOverhead, if_neg hty]
        simp only [contentSize, partSize_textPart]
        by_cases hcase : (noteBytes c.type path).length ≤ n + 1
        · have hrec := ih (n + 1 - (noteBytes c.type path).length)
          omega
        · have hz : n + 1 - (noteBytes c.type path).length = 0 := by omega
          rw [hz, buildLoop_zero]
          simp only [contentSize]
          omega

theorem sanitize_length_le (s : String) :
    (sanitizePathComponent s).data.length ≤ 100 := by
  unfold sanitizePathComponent
  set l : List Char :=
    ((s.data.map (fun c => if isAllowedChar c then c else '_')).dropWhile
      (fun c => c = '.')).take 100 with hl
  by_cases hemp : l.isEmpty
  · simp [hemp]
  · simp only [hemp, Bool.false_eq_true, if_false]
    exact hl ▸ List.length_take_le 100 _

theorem asciiBytes_length (s : String) : (asciiBytes s).length = s.data.length := by
  simp [asciiBytes]

theorem spillExt_length_le (content : List Content) :
    (spillExt content).data.length ≤ 5 := by
  unfold spillExt
  by_cases h : content.all (fun c => isTextType c.type) <;> simp [h]

theorem truncSuffix_length_le (sid tool cid ext : String)
    (hext : ext.data.length ≤ 5) :
    (truncSuffix (spillPath sid tool cid ext)).length ≤ maxToolResultSize := by
  have h1 := sanitize_length_le sid
  have h2 := sanitize_length_le tool
  have h3 := sanitize_length_le cid
  unfold truncSuffix spillPath
  simp only [List.length_append, asciiBytes_length, String.data_append]
  have e1 : ("\n\n[Truncated: full output available at " : String).data.length = 39 := by
    decide
  have e2 : ("]" : String).data.length = 1 := by decide
  have e3 : (".nanobot/" : String).data.length = 9 := by decide
  have e4 : ("/truncated-outputs/" : String).data.length = 19 := by decide
  have e5 : ("-" : String).data.length = 1 := by decide
  simp only [e1, e2, e3, e4, e5, maxToolResultSize]
  omega

/-- When truncation applies (nonempty oversized content without the skip
meta), `truncateToolResult` rebuilds the message around the truncated
content and spills the full content. -/
theorem truncate_applies_eq (sid tool cid : String) (m : BMsg)
    (item0 : BItem) (rest : List BItem) (result : BToolCallResult)
    (hitems : m.items = item0 :: rest)
    (hres : item0.toolCallResult = some result)
    (hne : result.output.content ≠ [])
    (hskip : hasSkipTruncation result.output.content = false)
    (hbig : maxToolResultSize < contentSize result.output.content) :
    truncateToolResult sid tool cid false (some m) =
      (some ⟨m.id, m.role, [⟨item0.id, some ⟨"", result.callID,
          { result.output with
            content := buildTruncatedContent result.output.content
              maxToolResultSize
              (spillPath sid tool cid (spillExt result.output.content)) }⟩⟩]⟩,
       some ⟨spillPath sid tool cid (spillExt result.output.content),
         writeFullResult result.output.content⟩) := by
  have hemp : result.output.content.isEmpty = false := by
    cases hc : result.output.content
    · exact absurd hc hne
    · rfl
  obtain ⟨mid, mrole, mitems⟩ := m
  obtain ⟨iid, itcr⟩ := item0
  simp only at hitems hres
  subst hitems
  subst hres
  simp only [truncateToolResult, hemp, Bool.false_eq_true, if_false, hskip,
    if_neg (not_le.2 hbig)]

/-- A result at or below the size limit passes through unchanged (with no
spill), whatever the other fields. -/
theorem truncate_small_eq (sid tool cid : String) (wf : Bool) (m : BMsg)
    (item0 : BItem) (rest : List BItem) (result : BToolCallResult)
    (hitems : m.items = item0 :: rest)
    (hres : item0.toolCallResult = some result)
    (hsmall : contentSize result.output.content ≤ maxToolResultSize) :
    truncateToolResult sid tool cid wf (some m) = (some m, none) := by
  obtain ⟨mid, mrole, mitems⟩ := m
  obtain ⟨iid, itcr⟩ := item0
  simp only at hitems hres
  subst hitems
  subst hres
  by_cases hemp : result.output.content.isEmpty
  · simp [truncateToolResult, hemp]
  · by_cases hskip : hasSkipTruncation result.output.content
    · simp [truncateToolResult, hemp, hskip]
    · simp [truncateToolResult, hemp, hskip, hsmall]

/-- A result with the skip-truncation meta passes through unchanged. -/
theorem truncate_skip_eq (sid tool cid : String) (wf : Bool) (m : BMsg)
    (item0 : BItem) (rest : List BItem) (result : BToolCallResult)
    (hitems : m.items = item0 :: rest)
    (hres : item0.toolCallResult = some result)
    (hskip : hasSkipTruncation result.output.content = true) :
    truncateToolResult sid tool cid wf (some m) = (some m, none) := by
  obtain ⟨mid, mrole, mitems⟩ := m
  obtain ⟨iid, itcr⟩ := item0
  simp only at hitems hres
  subst hitems
  subst hres
  by_cases hemp : result.output.content.isEmpty
  · simp [truncateToolResult, hemp]
  · simp [truncateToolResult, hemp, hskip]

theorem contentSize_buildTruncatedContent_le (content : List Content)
    (path : String) :
    contentSize (buildTruncatedContent content maxToolResultSize path) ≤
      (maxToolResultSize - (truncSuffix path).length) +
        noticeOverhead path content + (truncSuffix path).length := by
  unfold buildTruncatedContent
  rw [contentSize_append]
  have h1 := contentSize_buildLoop_le path content
    (maxToolResultSize - (truncSuffix path).length)
  simp only [contentSize, partSize_textPart]
  omega

/-- C1: for a tool-call-result message whose content byte size exceeds the
50 KiB limit and carries no skip-truncation meta, `truncateToolResult`
rebuilds the message with the truncated content — all parts text, ending in
the "[Truncated: full output available at <path>]" notice, total size at
most the limit plus the replacement-note overhead, isError and the other
output fields preserved — and persists the full original content at
`.nanobot/<sanitized session>/truncated-outputs/<sanitized tool>-<sanitized
callId>.txt` (all-text) or `.json` (otherwise); a result at or below the
limit, or with the skip-truncation meta, is returned unchanged. -/
theorem C1_truncate_tool_result (sid tool cid : String) (m : BMsg)
    (item0 : BItem) (rest : List BItem) (result : BToolCallResult)
    (hitems : m.items = item0 :: rest)
    (hres : item0.toolCallResult = some result) :
    (hasSkipTruncation result.output.content = true →
      truncateToolResult sid tool cid false (some m) = (some m, none)) ∧
    (contentSize result.output.content ≤ maxToolResultSize →
      truncateToolResult sid tool cid false (some m) = (some m, none)) ∧
    (result.output.content ≠ [] →
      hasSkipTruncation result.output.content = false →
      maxToolResultSize < contentSize result.output.content →
      ∀ path newContent,
      path = spillPath sid tool cid (spillExt result.output.content) →
      newContent = buildTruncatedContent result.output.content
        maxToolResultSize path →
      truncateToolResult sid tool cid false (some m) =
        (some ⟨m.id, m.role, [⟨item0.id, some ⟨"", result.callID,
            { result.output with content := newContent }⟩⟩]⟩,
         some ⟨path, writeFullResult result.output.content⟩) ∧
      contentSize newContent ≤
        maxToolResultSize + noticeOverhead path result.output.content ∧
      newContent.getLast? = some (textPart (truncSuffix path)) ∧
      (∀ p ∈ newContent, ∃ t, p = textPart t)) := by
  refine ⟨truncate_skip_eq sid tool cid false m item0 rest result hitems hres,
    truncate_small_eq sid tool cid false m item0 rest result hitems hres,
    ?_⟩
  intro hne hskip hbig path newContent hpath hnc
  subst hpath
  subst hnc
  refine ⟨truncate_applies_eq sid tool cid m item0 rest result hitems hres
    hne hskip hbig, ?_, ?_, ?_⟩
  · have h1 := contentSize_buildTruncatedContent_le result.output.content
      (spillPath sid tool cid (spillExt result.output.content))
    have h2 := truncSuffix_length_le sid tool cid
      (spillExt result.output.content) (spillExt_length_le _)
    omega
  · unfold buildTruncatedContent
    exact List.getLast?_concat _
  · intro p hp
    unfold buildTruncatedContent at hp
    rcases List.mem_append.1 hp with h | h
    · exact buildLoop_parts _ _ _ p h
    · rcases List.mem_singleton.1 h with rfl
      exact ⟨_, rfl⟩

/-- C1 witness: a single 51201-byte text part is truncated (with the notice
trailing and the spill recorded), while a 51200-byte one passes through. -/
theorem C1_truncate_tool_result_witness :
    (maxToolResultSize <
      contentSize [textPart (List.replicate 51201 (120 : UInt8))] ∧
      ∃ nm sp, truncateToolResult "sess" "big" "call1" false
        (some ⟨"m1", "tool", [⟨"i1", some ⟨"", "call1",
          ⟨[textPart (List.replicate 51201 (120 : UInt8))], true, false,
            "", "", ""⟩⟩⟩]⟩) = (some nm, some sp)) ∧
    truncateToolResult "sess" "big" "call2" false
      (some ⟨"m2", "tool", [⟨"i2", some ⟨"", "call2",
        ⟨[textPart (List.replicate 51200 (120 : UInt8))], false, false,
          "", "", ""⟩⟩⟩]⟩) =
      (some ⟨"m2", "tool", [⟨"i2", some ⟨"", "call2",
        ⟨[textPart (List.replicate 51200 (120 : UInt8))], false, false,
          "", "", ""⟩⟩⟩]⟩, none) := by
  have hsz : ∀ n, contentSize [textPart (List.replicate n (120 : UInt8))] = n := by
    intro n
    rw [contentSize, contentSize, partSize_textPart, List.length_replicate,
      Nat.add_zero]
  constructor
  · have hbig : maxToolResultSize <
        contentSize [textPart (List.replicate 51201 (120 : UInt8))] := by
      rw [hsz]
      decide
    refine ⟨hbig, ?_⟩
    obtain ⟨heq, _, _, _⟩ := (C1_truncate_tool_result "sess" "big" "call1"
      ⟨"m1", "tool", [⟨"i1", some ⟨"", "call1",
        ⟨[textPart (List.replicate 51201 (120 : UInt8))], true, false,
          "", "", ""⟩⟩⟩]⟩
      ⟨"i1", some ⟨"", "call1",
        ⟨[textPart (List.replicate 51201 (120 : UInt8))], true, false,
          "", "", ""⟩⟩⟩ []
      ⟨"", "call1", ⟨[textPart (List.replicate 51201 (120 : UInt8))], true,
        false, "", "", ""⟩⟩ rfl rfl).2.2
      (by intro h; exact absurd (congrArg List.length h) (by decide))
      (by decide) hbig _ _ rfl rfl
    exact ⟨_, _, heq⟩
  · exact (C1_truncate_tool_result "sess" "big" "call2"
      ⟨"m2", "tool", [⟨"i2", some ⟨"", "call2",
        ⟨[textPart (List.replicate 51200 (120 : UInt8))], false, false,
          "", "", ""⟩⟩⟩]⟩
      ⟨"i2", some ⟨"", "call2",
        ⟨[textPart (List.replicate 51200 (120 : UInt8))], false, false,
          "", "", ""⟩⟩⟩ []
      ⟨"", "call2", ⟨[textPart (List.replicate 51200 (120 : UInt8))], false,
        false, "", "", ""⟩⟩ rfl rfl).2.1 (by rw [hsz])

theorem noticeOverhead_eq_zero_of_text (path : String) (cs : List Content)
    (h : ∀ p ∈ cs, isTextType p.type = true) :
    noticeOverhead path cs = 0 := by
  induction cs with
  | nil => rfl
  | cons c cs' ih =>
    rw [noticeOverhead, if_pos (h c (List.mem_cons_self _ _))]
    exact ih (fun p hp => h p (List.mem_cons_of_mem _ hp))

/-- C10: `truncateToolResult` is a pure transformation of its input — on
the pass-through paths it returns the input message value itself, and when
truncation applies it returns a message value distinct from the input (a
newly constructed message, as the mutation test demands): its content is
all-text within the budget, which an oversized original cannot equal. -/
theorem C10_truncate_returns_fresh_message (sid tool cid : String) (m : BMsg)
    (item0 : BItem) (rest : List BItem) (result : BToolCallResult)
    (hitems : m.items = item0 :: rest)
    (hres : item0.toolCallResult = some result) :
    (contentSize result.output.content ≤ maxToolResultSize →
      (truncateToolResult sid tool cid false (some m)).1 = some m) ∧
    (hasSkipTruncation result.output.content = true →
      (truncateToolResult sid tool cid false (some m)).1 = some m) ∧
    (result.output.content ≠ [] →
      hasSkipTruncation result.output.content = false →
      maxToolResultSize < contentSize result.output.content →
      (truncateToolResult sid tool cid false (some m)).1 ≠ some m) := by
  refine ⟨fun h => by
      rw [truncate_small_eq sid tool cid false m item0 rest result hitems
        hres h],
    fun h => by
      rw [truncate_skip_eq sid tool cid false m item0 rest result hitems
        hres h], ?_⟩
  intro hne hskip hbig heq
  rw [truncate_applies_eq sid tool cid m item0 rest result hitems hres hne
    hskip hbig] at heq
  simp only [Option.some.injEq] at heq
  -- the returned message equals m: extract that the new content equals the
  -- original content
  have hitemseq : ([⟨item0.id, some ⟨"", result.callID,
      { result.output with
        content := buildTruncatedContent result.output.content
          maxToolResultSize
          (spillPath sid tool cid (spillExt result.output.content)) }⟩⟩] :
      List BItem) = m.items := congrArg BMsg.items heq
  rw [hitems] at hitemseq
  have hitem0 : (⟨item0.id, some ⟨"", result.callID,
      { result.output with
        content := buildTruncatedContent result.output.content
          maxToolResultSize
          (spillPath sid tool cid (spillExt result.output.content)) }⟩⟩ :
      BItem) = item0 := (List.cons.injEq _ _ _ _ ▸ hitemseq).1
  have hcontent : buildTruncatedContent result.output.content
      maxToolResultSize
      (spillPath sid tool cid (spillExt result.output.content)) =
      result.output.content := by
    have := congrArg BItem.toolCallResult hitem0
    rw [hres] at this
    simp only [Option.some.injEq] at this
    have := congrArg BToolCallResult.output this
    have := congrArg CallResult.content this
    simpa using this
  -- all parts of the truncated content are text parts, so the original
  -- content is all-text, the note overhead is zero, and its size fits the
  -- budget — contradicting the oversize hypothesis
  set path := spillPath sid tool cid (spillExt result.output.content) with hpath
  have halltext : ∀ p ∈ result.output.content, isTextType p.type = true := by
    intro p hp
    rw [← hcontent] at hp
    unfold buildTruncatedContent at hp
    rcases List.mem_append.1 hp with h | h
    · obtain ⟨t, rfl⟩ := buildLoop_parts _ _ _ p h
      exact isTextType_textPart t
    · rcases List.mem_singleton.1 h with rfl
      exact isTextType_textPart _
  have hzero : noticeOverhead path result.output.content = 0 :=
    noticeOverhead_eq_zero_of_text path _ halltext
  have hb := contentSize_buildTruncatedContent_le result.output.content path
  rw [hcontent, hzero] at hb
  have hsuf := truncSuffix_length_le sid tool cid
    (spillExt result.output.content) (spillExt_length_le _)
  rw [← hpath] at hsuf
  omega

/-- C10 witness: the oversized message of the truncation path is returned
as a different value, and the at-limit message is returned unchanged. -/
theorem C10_truncate_returns_fresh_message_witness :
    maxToolResultSize <
      contentSize [textPart (List.replicate 51201 (121 : UInt8))] ∧
    (truncateToolResult "s" "t" "c" false
      (some ⟨"m", "tool", [⟨"i", some ⟨"", "c",
        ⟨[textPart (List.replicate 51201 (121 : UInt8))], false, false,
          "", "", ""⟩⟩⟩]⟩)).1 ≠
      some ⟨"m", "tool", [⟨"i", some ⟨"", "c",
        ⟨[textPart (List.replicate 51201 (121 : UInt8))], false, false,
          "", "", ""⟩⟩⟩]⟩ := by
  have hbig : maxToolResultSize <
      contentSize [textPart (List.replicate 51201 (121 : UInt8))] := by
    rw [contentSize, contentSize, partSize_textPart, List.length_replicate,
      Nat.add_zero]
    decide
  refine ⟨hbig, ?_⟩
  exact (C10_truncate_returns_fresh_message "s" "t" "c"
    ⟨"m", "tool", [⟨"i", some ⟨"", "c",
      ⟨[textPart (List.replicate 51201 (121 : UInt8))], false, false,
        "", "", ""⟩⟩⟩]⟩
    ⟨"i", some ⟨"", "c",
      ⟨[textPart (List.replicate 51201 (121 : UInt8))], false, false,
        "", "", ""⟩⟩⟩ []
    ⟨"", "c", ⟨[textPart (List.replicate 51201 (121 : UInt8))], false, false,
      "", "", ""⟩⟩ rfl rfl).2.2
    (by intro h; exact absurd (congrArg List.length h) (by decide))
    (by decide) hbig

end Nanobot
